import Mathlib

/-!
# steamos-powerbuttond

A shallow embedding of `powerbuttond.c`: the capability check of `open_dev`, the two
device-selection loops (`find_devs` and the argument loop of `main`), and the press
classifier that `main` runs over the decoded events of the opened devices.

Conventions of the embedding.

* `int modifiers` is carried as its 32-bit two's-complement bit pattern, a `Nat`
  below `2 ^ 32`; `&`, `|` and `~` act on that pattern (`bnot` is `~`).
* `ev.value` (a signed 32-bit field) is an `Int`; it is only ever compared.
* The pending `alarm(2)` timer is the number of seconds it was armed with, `0`
  meaning that no alarm is pending.
* A call of `do_press` is recorded by appending its argument to `State.presses`.
* The main loop is driven by a list of `Input`s: what `poll` returned, what
  `libevdev_next_event` returned on a device, and the expiry of the pending alarm.
-/

namespace Powerbuttond

/-! ## Constants of `powerbuttond.c` -/

def MAX_DEVS : Nat := 2

def MOD_LSHIFT : Nat := 0x01
def MOD_RSHIFT : Nat := 0x02
def MOD_SHIFT : Nat := 0x03
def MOD_LCTRL : Nat := 0x04
def MOD_RCTRL : Nat := 0x08
def MOD_CTRL : Nat := 0x0C
def MOD_LALT : Nat := 0x10
def MOD_RALT : Nat := 0x20
def MOD_ALT : Nat := 0x30
def MOD_LMETA : Nat := 0x40
def MOD_RMETA : Nat := 0x80
def MOD_META : Nat := 0xC0

/-! ## Constants of the system headers the program includes -/

def EV_KEY : Nat := 0x01
def EV_SW : Nat := 0x05
def SW_LID : Nat := 0x00
def KEY_LEFTCTRL : Nat := 29
def KEY_LEFTSHIFT : Nat := 42
def KEY_RIGHTSHIFT : Nat := 54
def KEY_LEFTALT : Nat := 56
def KEY_RIGHTCTRL : Nat := 97
def KEY_RIGHTALT : Nat := 100
def KEY_POWER : Nat := 116
def KEY_LEFTMETA : Nat := 125
def KEY_RIGHTMETA : Nat := 126
def KEY_F16 : Nat := 186
def EINTR : Int := 4
def ENOENT : Int := 2
def ECHILD : Int := 10
def EAGAIN : Int := 11
def LIBEVDEV_READ_STATUS_SUCCESS : Int := 0
def LIBEVDEV_READ_STATUS_SYNC : Int := 1

/-- The C operator `~` on a 32-bit `int`, on bit patterns. -/
def bnot (x : Nat) : Nat := x ^^^ 0xFFFFFFFF

/-! ## Data model -/

/-- The argument of `do_press`: the string "short" or "long". -/
inductive PressType where
  | short
  | long
  deriving DecidableEq

/-- The fields of `struct input_event` the program reads. -/
structure input_event where
  type : Nat
  code : Nat
  value : Int
  deriving DecidableEq

/-- What the system answers for one device path: the result of `open`, the result of
`libevdev_new_from_fd`, and the `(type, code)` pairs for which
`libevdev_has_event_code` is non-zero. -/
structure DevNode where
  open_fd : Int
  new_from_fd : Int
  caps : List (Nat × Nat)
  deriving DecidableEq

/-- A `struct libevdev*` handle: the path it was opened on, its descriptor and the
capabilities of the device behind it. -/
structure libevdev where
  path : String
  fd : Int
  caps : List (Nat × Nat)
  deriving DecidableEq

/-- The program's `struct evdev_context`. -/
structure evdev_context where
  dev : libevdev
  modifiers : Nat
  deriving DecidableEq

/-- The variables of `main` and of the process that the loop reads and writes:
`press_active`, the flag `got_alarm`, the pending alarm, the first `num_devs` slots of
`devs`, and the calls of `do_press` made so far (oldest first). -/
structure State where
  press_active : Bool
  got_alarm : Bool
  timer : Nat
  devs : List evdev_context
  presses : List PressType
  deriving DecidableEq

/-! ## Device selection -/

/-- The value of `libevdev_has_event_code(dev, type, code)` as a truth value. -/
def libevdev_has_event_code (caps : List (Nat × Nat)) (type code : Nat) : Bool :=
  decide ((type, code) ∈ caps)

/-- The function `open_dev`: `none` is `return false`, `some dev` is `return true` with
`ctx->dev = dev`. -/
def open_dev (sys : String → DevNode) (path : String) : Option libevdev :=
  let fd := (sys path).open_fd
  if fd < 0 then
    none
  else if (sys path).new_from_fd < 0 then
    none
  else
    let caps := (sys path).caps
    let has_meta :=
      libevdev_has_event_code caps EV_KEY KEY_LEFTMETA && libevdev_has_event_code caps EV_KEY KEY_F16
    let has_power := libevdev_has_event_code caps EV_KEY KEY_POWER
    let has_lid := libevdev_has_event_code caps EV_SW SW_LID
    if !has_meta && !has_power && !has_lid then
      none
    else
      some ⟨path, fd, caps⟩

/-- What device selection leaves behind: the filled slots of `devs`, the paths
`open_dev` was called on (in call order), and whether `find_devs` was called. -/
structure Located where
  devs : List evdev_context
  tried : List String
  discovered : Bool
  deriving DecidableEq

/-- The argument loop of `main` (lines 165-169) from the argument `argv[i + 1]` on:
`rest` is the arguments not yet visited, `devs` and `tried` the slots filled and the
paths tried so far. -/
def open_args (sys : String → DevNode) :
    List String → List evdev_context → List String → List evdev_context × List String
  | [], devs, tried => (devs, tried)
  | p :: rest, devs, tried =>
    if devs.length < MAX_DEVS then
      match open_dev sys p with
      | some d => open_args sys rest (devs ++ [⟨d, 0⟩]) (tried ++ [p])
      | none => open_args sys rest devs (tried ++ [p])
    else
      (devs, tried)

/-- A `struct udev_device` as far as `find_devs` looks at it: the value of the
property `STEAMOS_POWER_BUTTON_IGNORE` and the device node, each possibly `NULL`. -/
structure udev_device where
  ignore : Option String
  devnode : Option String
  deriving DecidableEq

/-- The answers of libudev to `find_devs`: whether `udev_new` and
`udev_enumerate_new` return an object, the return values of the three
`add_match` calls and of the scan, and for each list entry what
`udev_device_new_from_syspath` returns. -/
structure Udev where
  udev_new : Bool
  enumerate_new : Bool
  match_subsystem : Int
  match_sysname : Int
  match_property : Int
  scan_devices : Int
  entries : List (Option udev_device)
  deriving DecidableEq

/-- The loop of `find_devs` (lines 97-114) from the list entry `devices` on. -/
def find_devs_loop (sys : String → DevNode) :
    List (Option udev_device) → List evdev_context → List String →
      List evdev_context × List String
  | [], devs, tried => (devs, tried)
  | e :: rest, devs, tried =>
    if devs.length < MAX_DEVS then
      match e with
      | none => find_devs_loop sys rest devs tried
      | some dev =>
        if dev.ignore.isSome then
          find_devs_loop sys rest devs tried
        else
          match dev.devnode with
          | some devpath =>
            match open_dev sys devpath with
            | some d => find_devs_loop sys rest (devs ++ [⟨d, 0⟩]) (tried ++ [devpath])
            | none => find_devs_loop sys rest devs (tried ++ [devpath])
          | none => find_devs_loop sys rest devs tried
    else
      (devs, tried)

/-- The function `find_devs`: the slots it fills (their number is its return value)
and the paths it called `open_dev` on. -/
def find_devs (sys : String → DevNode) (u : Udev) : List evdev_context × List String :=
  if !u.udev_new then
    ([], [])
  else if !u.enumerate_new then
    ([], [])
  else if u.match_subsystem < 0 then
    ([], [])
  else if u.match_sysname < 0 then
    ([], [])
  else if u.match_property < 0 then
    ([], [])
  else if u.scan_devices < 0 then
    ([], [])
  else
    find_devs_loop sys u.entries [] []

/-- Lines 159-172 of `main`: `args` is `argv[1 .. argc - 1]`, so `argc >= 2` is
`args ≠ []`. -/
def locate (sys : String → DevNode) (u : Udev) (args : List String) : Located :=
  if args ≠ [] then
    let r := open_args sys args [] []
    ⟨r.1, r.2, false⟩
  else
    let r := find_devs sys u
    ⟨r.1, r.2, true⟩

/-! ## The press classifier -/

/-- The system call `alarm(seconds)`: replaces the pending alarm, `alarm(0)` cancels
it. -/
def alarm (seconds : Nat) (s : State) : State :=
  { s with timer := seconds }

/-- The handler of `SIGALRM`. -/
def signal_handler (s : State) : State :=
  { s with got_alarm := true }

/-- The function `do_press` as the loop sees it: the alarm is cancelled, `got_alarm`
is reset, and the call is recorded. -/
def do_press (type : PressType) (s : State) : State :=
  let s := alarm 0 s
  { s with got_alarm := false, presses := s.presses ++ [type] }

/-- The value of `devs[i].modifiers`. -/
def modifiers (s : State) (i : Nat) : Nat :=
  match s.devs[i]? with
  | some ctx => ctx.modifiers
  | none => 0

/-- The assignment `devs[i].modifiers = m`. -/
def set_modifiers (s : State) (i : Nat) (m : Nat) : State :=
  { s with devs := s.devs.modify (fun ctx => { ctx with modifiers := m }) i }

/-- The body shared by the eight modifier cases of the switch:
`devs[i].modifiers &= ~bit; if (ev.value > 0) devs[i].modifiers |= bit;`. -/
def track_modifier (bit : Nat) (value : Int) (m : Nat) : Nat :=
  let m := m &&& bnot bit
  if value > 0 then m ||| bit else m

/-- Lines 211-282: what the loop does with one decoded event `ev` of device `i`. -/
def handle_event (i : Nat) (ev : input_event) (s : State) : State :=
  if ev.type = EV_KEY then
    if ev.code = KEY_POWER then
      if ev.value = 1 then
        alarm 1 { s with press_active := true }
      else if ev.value = 0 ∧ s.press_active = true then
        do_press PressType.short { s with press_active := false }
      else
        s
    else if ev.code = KEY_LEFTSHIFT then
      set_modifiers s i (track_modifier MOD_LSHIFT ev.value (modifiers s i))
    else if ev.code = KEY_RIGHTSHIFT then
      set_modifiers s i (track_modifier MOD_RSHIFT ev.value (modifiers s i))
    else if ev.code = KEY_LEFTCTRL then
      set_modifiers s i (track_modifier MOD_LCTRL ev.value (modifiers s i))
    else if ev.code = KEY_RIGHTCTRL then
      set_modifiers s i (track_modifier MOD_RCTRL ev.value (modifiers s i))
    else if ev.code = KEY_LEFTALT then
      set_modifiers s i (track_modifier MOD_LALT ev.value (modifiers s i))
    else if ev.code = KEY_RIGHTALT then
      set_modifiers s i (track_modifier MOD_RALT ev.value (modifiers s i))
    else if ev.code = KEY_LEFTMETA then
      set_modifiers s i (track_modifier MOD_LMETA ev.value (modifiers s i))
    else if ev.code = KEY_RIGHTMETA then
      set_modifiers s i (track_modifier MOD_RMETA ev.value (modifiers s i))
    else if ev.code = KEY_F16 then
      if ev.value = 1 ∧ (modifiers s i &&& MOD_META) ≠ 0
          ∧ (modifiers s i &&& bnot MOD_META) = 0 then
        do_press PressType.long { s with press_active := false }
      else
        s
    else
      s
  else if ev.type = EV_SW then
    if ev.code = SW_LID ∧ ev.value = 1 then
      do_press PressType.short { s with press_active := false }
    else
      s
  else
    s

/-- What reaches the loop of `main`.

* `alarm_expired`: the pending alarm runs out and `SIGALRM` is delivered.
* `poll res errno`: `poll` returned `res` with that `errno` (line 189).
* `next_event i res ev`: on device `i`, `libevdev_next_event` and the resync loop
  after it left `res` and `ev` (lines 204-207). -/
inductive Input where
  | alarm_expired
  | poll (res : Int) (errno : Int)
  | next_event (i : Nat) (res : Int) (ev : input_event)
  deriving DecidableEq

/-- One reaction of the loop of `main`.

* `alarm_expired`: nothing is delivered unless an alarm is pending; the alarm is
  one-shot, and the handler runs.
* `poll`: lines 190-195. After the dispatch the `for` loop finds no `POLLIN`.
* `next_event`: a successful read is handled by the switch; any other result
  leaves the `do` loop and reaches the test of line 284. -/
def step (s : State) : Input → State
  | Input.alarm_expired =>
    if s.timer ≠ 0 then signal_handler { s with timer := 0 } else s
  | Input.poll res errno =>
    if res < 0 ∧ errno = EINTR ∧ s.press_active = true ∧ s.got_alarm = true then
      do_press PressType.long { s with press_active := false }
    else
      s
  | Input.next_event i res ev =>
    if res = LIBEVDEV_READ_STATUS_SUCCESS then
      handle_event i ev s
    else if res = -EINTR ∧ s.press_active = true ∧ s.got_alarm = true then
      do_press PressType.long { s with press_active := false }
    else
      s

/-- The loop of `main` over a finite list of inputs. -/
def run (s : State) (inputs : List Input) : State :=
  inputs.foldl step s

/-- The state in which `main` enters its loop (lines 159 and 182): `devs` was
zero-initialised, so every mask is `0`. -/
def init (devs : List evdev_context) : State :=
  { press_active := false, got_alarm := false, timer := 0, devs := devs, presses := [] }

/-- How far `main` got: it returned `code` having made the calls `presses` of
`do_press`, or it is in its loop in state `s`. -/
inductive MainResult where
  | returned (code : Int) (presses : List PressType)
  | looping (s : State)
  deriving DecidableEq

/-- The function `main` on the arguments `args`, fed `inputs` once in its loop. -/
def main (sys : String → DevNode) (u : Udev) (args : List String) (inputs : List Input) :
    MainResult :=
  let devs := (locate sys u args).devs
  if devs.length = 0 then
    MainResult.returned 0 []
  else
    MainResult.looping (run (init devs) inputs)

/-! ## Events named by the specification -/

/-- A decoded power-key event with the given value. -/
def power_key (value : Int) : input_event := ⟨EV_KEY, KEY_POWER, value⟩

/-- A decoded lid-switch event with the given value. -/
def lid_switch (value : Int) : input_event := ⟨EV_SW, SW_LID, value⟩

/-- A decoded F16 event with the given value. -/
def f16_key (value : Int) : input_event := ⟨EV_KEY, KEY_F16, value⟩

/-- The decoded event `ev` arriving on device `i`. -/
def decoded (i : Nat) (ev : input_event) : Input :=
  Input.next_event i LIBEVDEV_READ_STATUS_SUCCESS ev

/-- A power-key down: a decoded `KEY_POWER` event with value 1. -/
def is_power_down : Input → Bool
  | Input.next_event _ res ev =>
    decide (res = LIBEVDEV_READ_STATUS_SUCCESS ∧ ev = power_key 1)
  | _ => false

/-- A power-key up: a decoded `KEY_POWER` event with value 0. -/
def is_power_up : Input → Bool
  | Input.next_event _ res ev =>
    decide (res = LIBEVDEV_READ_STATUS_SUCCESS ∧ ev = power_key 0)
  | _ => false

/-- Everything the expiry of the timer can reach the loop as: the expiry itself, any
return of `poll`, and any read that did not decode an event. -/
def is_timer_wakeup : Input → Bool
  | Input.alarm_expired => true
  | Input.poll _ _ => true
  | Input.next_event _ res _ => decide (res ≠ LIBEVDEV_READ_STATUS_SUCCESS)

/-- The two places where the loop notices that it was interrupted: `poll` failing
with `EINTR` (line 190) and a read returning `-EINTR` (line 284). -/
def is_interrupted : Input → Bool
  | Input.alarm_expired => false
  | Input.poll res errno => decide (res < 0 ∧ errno = EINTR)
  | Input.next_event _ res _ => decide (res = -EINTR)

/-- The mask has at least one meta bit set (bit 6 is the left, bit 7 the right meta
key) and none of its other 30 bits set. -/
def meta_only (m : Nat) : Bool :=
  (m.testBit 6 || m.testBit 7)
    && (List.range 32).all (fun j => j == 6 || j == 7 || !m.testBit j)

/-- The eight modifier keys, each with the number of its bit in the mask: left and
right shift, ctrl, alt and meta are bits 0 to 7. -/
def modifier_keys : List (Nat × Nat) :=
  [(KEY_LEFTSHIFT, 0), (KEY_RIGHTSHIFT, 1), (KEY_LEFTCTRL, 2), (KEY_RIGHTCTRL, 3),
   (KEY_LEFTALT, 4), (KEY_RIGHTALT, 5), (KEY_LEFTMETA, 6), (KEY_RIGHTMETA, 7)]

/-- The path `p` passes `open_dev`. -/
def passes (sys : String → DevNode) (p : String) : Bool :=
  (open_dev sys p).isSome

/-- The device behind `node` supports the event code `code` of type `type`. -/
@[reducible] def supports (node : DevNode) (type code : Nat) : Prop :=
  (type, code) ∈ node.caps

/-- A sample system: `event3` is a keyboard with left meta and F16, `event5` a keyboard
with left meta but no F16, `event7` a power button, `event9` a lid switch; nothing
else can be opened. -/
def sample_sys : String → DevNode := fun p =>
  if p = "/dev/input/event3" then ⟨3, 0, [(EV_KEY, KEY_LEFTMETA), (EV_KEY, KEY_F16)]⟩
  else if p = "/dev/input/event5" then ⟨3, 0, [(EV_KEY, KEY_LEFTMETA)]⟩
  else if p = "/dev/input/event7" then ⟨3, 0, [(EV_KEY, KEY_POWER)]⟩
  else if p = "/dev/input/event9" then ⟨3, 0, [(EV_SW, SW_LID)]⟩
  else ⟨-1, 0, []⟩

/-- A sample of libudev answers: the enumeration works and lists nothing. -/
def sample_udev : Udev :=
  ⟨true, true, 0, 0, 0, 0, []⟩

/-- A sample of two opened keyboards: the first holds left shift and left meta, the
second holds right meta. -/
def sample_devs : List evdev_context :=
  [⟨⟨"/dev/input/event3", 3, [(EV_KEY, KEY_LEFTMETA), (EV_KEY, KEY_F16)]⟩, 0x41⟩,
   ⟨⟨"/dev/input/event4", 4, [(EV_KEY, KEY_LEFTMETA), (EV_KEY, KEY_F16)]⟩, 0x80⟩]

/-! ## The external call of `do_press` -/

/-- The loop of lines 141-148 over the successive outcomes `(return value, errno)` of
`waitpid`, with `calls` calls made so far: the number of calls made and whether the
loop was left. The loop is still running when the outcomes run out. -/
def wait_loop : List (Int × Int) → Nat → Nat × Bool
  | [], calls => (calls, false)
  | (ret, errno) :: rest, calls =>
    if ret > 0 then
      (calls + 1, true)
    else if errno ≠ EINTR ∧ errno ≠ EAGAIN then
      (calls + 1, true)
    else
      wait_loop rest (calls + 1)

/-- One execution of `do_press`: the state in which `posix_spawn` is called, the
number of `waitpid` calls made, whether the function returned, and the state it leaves
behind. -/
structure PressRun where
  at_spawn : State
  waitpid_calls : Nat
  returned : Bool
  final : State
  deriving DecidableEq

/-- The function `do_press` with its external call: `spawn_ret` is the return value
of `posix_spawn` and `waits` the successive outcomes of `waitpid`. Lines 131-132 are
`do_press` above; neither the spawn nor the wait touches the state of the loop. -/
def do_press_sys (type : PressType) (spawn_ret : Int) (waits : List (Int × Int))
    (s : State) : PressRun :=
  let s := do_press type s
  if spawn_ret < 0 then
    ⟨s, 0, true, s⟩
  else
    let w := wait_loop waits 0
    ⟨s, w.1, w.2, s⟩

/-- An outcome of `waitpid` on which the loop of lines 141-148 is left. -/
def ends_wait (w : Int × Int) : Bool :=
  decide (w.1 > 0) || decide (w.2 ≠ EINTR ∧ w.2 ≠ EAGAIN)

/-! ## Notions of the specification for `find_devs` and for ignored events -/

/-- The calls before the loop of `find_devs` all succeeded, so that the list of
entries is walked. -/
def udev_ready (u : Udev) : Bool :=
  u.udev_new && u.enumerate_new && decide (0 ≤ u.match_subsystem)
    && decide (0 ≤ u.match_sysname) && decide (0 ≤ u.match_property)
    && decide (0 ≤ u.scan_devices)

/-- The device node of a list entry that has a device object, does not carry the
property `STEAMOS_POWER_BUTTON_IGNORE` and has a device node. -/
def candidate_path : Option udev_device → Option String
  | none => none
  | some dev => if dev.ignore.isSome then none else dev.devnode

/-- The key code is one of the eight modifier keys. -/
def is_modifier_code (code : Nat) : Bool :=
  modifier_keys.any (fun p => p.1 == code)

/-- The decoded event `ev` of device `i` is one of those the classifier reacts to in
state `s`: a power-key down, a power-key up while a press is active, a modifier key
event, an F16 down under the meta-only guard, or a lid-switch event with value 1. -/
def is_handled (s : State) (i : Nat) (ev : input_event) : Bool :=
  decide (ev = power_key 1)
    || (decide (ev = power_key 0) && s.press_active)
    || (decide (ev.type = EV_KEY) && is_modifier_code ev.code)
    || (decide (ev = f16_key 1) && meta_only (modifiers s i))
    || decide (ev = lid_switch 1)

/-- An input that leaves an active press pending, `got_alarm` being the current value
of the flag: a return of `poll` or a failed read that is not the observation of an
expired timer (not interrupted, or interrupted while `got_alarm` is false), or a
decoded event other than a power-key up, a lid-switch event with value 1 and an F16
down. The expiry of the alarm itself is not quiet. -/
def is_quiet (got_alarm : Bool) : Input → Bool
  | Input.alarm_expired => false
  | Input.poll res errno => !(decide (res < 0 ∧ errno = EINTR) && got_alarm)
  | Input.next_event _ res ev =>
    if res = LIBEVDEV_READ_STATUS_SUCCESS then
      decide (ev ≠ power_key 0 ∧ ev ≠ lid_switch 1 ∧ ev ≠ f16_key 1)
    else
      !(decide (res = -EINTR) && got_alarm)

/-- A press is pending: `press_active` is set, the alarm of 1 second is armed,
`got_alarm` is `g` and the calls of `do_press` made are `p`. -/
def press_pending (g : Bool) (p : List PressType) (s : State) : Prop :=
  s.press_active = true ∧ s.timer = 1 ∧ s.got_alarm = g ∧ s.presses = p

/-- The timer of an active press has expired and the expiry has not been acted on:
`press_active` and `got_alarm` are set and the calls of `do_press` made are `p`. -/
def press_expired (p : List PressType) (s : State) : Prop :=
  s.press_active = true ∧ s.got_alarm = true ∧ s.presses = p

/-- The invariant of the loop behind claim C17: while no press is active, no alarm is
pending and `got_alarm` is false. -/
def idle_quiet (s : State) : Prop :=
  s.press_active = false → s.timer = 0 ∧ s.got_alarm = false

/-- The invariant of the loop behind claim C18: every mask lies in the range 0 to
0xFF. -/
def masks_small (s : State) : Prop :=
  ∀ i, modifiers s i ≤ 0xFF

/-- A sample of libudev answers: an entry without device object, an ignored power
button, a keyboard without F16, a power button, an entry without device node, a lid
switch and a keyboard with F16. -/
def sample_entries : Udev :=
  ⟨true, true, 0, 0, 0, 0,
    [none,
     some ⟨some "1", some "/dev/input/event7"⟩,
     some ⟨none, some "/dev/input/event5"⟩,
     some ⟨none, some "/dev/input/event7"⟩,
     some ⟨none, none⟩,
     some ⟨none, some "/dev/input/event9"⟩,
     some ⟨none, some "/dev/input/event3"⟩]⟩

/-! ## Helper lemmas -/

theorem ite_ind {α : Type} (P : α → Prop) (c : Prop) [Decidable c] (a b : α)
    (ha : c → P a) (hb : ¬c → P b) : P (if c then a else b) := by
  by_cases h : c
  · rw [if_pos h]; exact ha h
  · rw [if_neg h]; exact hb h

/-- Case analysis on the result of `handle_event`: a power-key down arms the timer, a
dispatch goes through `do_press` with `press_active` cleared, a modifier key rewrites
one mask, and everything else leaves the state alone. -/
theorem handle_event_cases (P : State → Prop) (i : Nat) (ev : input_event) (s : State)
    (h_down : ev = power_key 1 → P (alarm 1 { s with press_active := true }))
    (h_press : ∀ k, P (do_press k { s with press_active := false }))
    (h_mod : ∀ m, P (set_modifiers s i m))
    (h_same : P s) : P (handle_event i ev s) := by
  unfold handle_event
  repeat' (apply ite_ind P <;> intro _)
  all_goals first
    | exact h_same
    | exact h_press _
    | exact h_mod _
    | skip
  rename_i h1 h2 h3
  apply h_down
  obtain ⟨t, c, v⟩ := ev
  simp only at h1 h2 h3
  subst h1 h2 h3
  rfl

/-- Case analysis on the result of `step`. -/
theorem step_cases (P : State → Prop) (s : State) (x : Input)
    (h_down : is_power_down x = true → P (alarm 1 { s with press_active := true }))
    (h_press : ∀ k, P (do_press k { s with press_active := false }))
    (h_mod : ∀ i m, P (set_modifiers s i m))
    (h_alarm : P (signal_handler { s with timer := 0 }))
    (h_same : P s) : P (step s x) := by
  cases x with
  | alarm_expired =>
    simp only [step]
    exact ite_ind P _ _ _ (fun _ => h_alarm) (fun _ => h_same)
  | poll res errno =>
    simp only [step]
    exact ite_ind P _ _ _ (fun _ => h_press _) (fun _ => h_same)
  | next_event i res ev =>
    simp only [step]
    apply ite_ind P
    · intro h1
      apply handle_event_cases P i ev s _ h_press (h_mod i) h_same
      intro h
      apply h_down
      subst h
      simp [is_power_down, h1]
    · intro _
      exact ite_ind P _ _ _ (fun _ => h_press _) (fun _ => h_same)

theorem run_nil (s : State) : run s [] = s := rfl

theorem run_cons (s : State) (x : Input) (xs : List Input) :
    run s (x :: xs) = run (step s x) xs := rfl

theorem run_append (s : State) (xs ys : List Input) :
    run s (xs ++ ys) = run (run s xs) ys := by
  simp [run, List.foldl_append]

/-- A step that calls `do_press` calls it once and leaves the classifier idle. -/
theorem step_dispatch (s : State) (x : Input) (h : (step s x).presses ≠ s.presses) :
    (∃ k, (step s x).presses = s.presses ++ [k]) ∧ (step s x).press_active = false := by
  revert h
  apply step_cases (fun r => r.presses ≠ s.presses →
    (∃ k, r.presses = s.presses ++ [k]) ∧ r.press_active = false) s x
  · intro _ h; exact absurd rfl h
  · intro k _; exact ⟨⟨k, rfl⟩, rfl⟩
  · intro i m h; exact absurd rfl h
  · intro h; exact absurd rfl h
  · intro h; exact absurd rfl h

/-- Only a power-key down sets `press_active`. -/
theorem step_stays_idle (s : State) (x : Input) (hs : s.press_active = false)
    (hx : is_power_down x = false) : (step s x).press_active = false := by
  apply step_cases (fun r => r.press_active = false) s x
  · intro h; rw [hx] at h; exact absurd h (by decide)
  · intro k; rfl
  · intro i m; exact hs
  · exact hs
  · exact hs

theorem run_stays_idle (xs : List Input) (s : State) (hs : s.press_active = false)
    (hxs : ∀ x ∈ xs, is_power_down x = false) : (run s xs).press_active = false := by
  induction xs generalizing s with
  | nil => exact hs
  | cons x xs ih =>
    rw [run_cons]
    apply ih
    · exact step_stays_idle s x hs (hxs x (List.mem_cons_self x xs))
    · intro y hy
      exact hxs y (List.mem_cons_of_mem x hy)

/-- While the classifier is idle a timer wakeup changes at most `got_alarm` and the
pending alarm. -/
theorem idle_timer_wakeup (s : State) (e : Input) (hs : s.press_active = false)
    (he : is_timer_wakeup e = true) :
    (step s e).presses = s.presses ∧ (step s e).press_active = false
      ∧ (step s e).devs = s.devs := by
  cases e with
  | alarm_expired =>
    simp only [step]
    split <;> exact ⟨rfl, hs, rfl⟩
  | poll res errno =>
    simp [step, hs]
  | next_event i res ev =>
    have h1 : res ≠ LIBEVDEV_READ_STATUS_SUCCESS := by simpa [is_timer_wakeup] using he
    simp [step, hs, h1]

/-- While the classifier is idle a power-key up changes nothing. -/
theorem idle_power_up (s : State) (e : Input) (hs : s.press_active = false)
    (he : is_power_up e = true) : step s e = s := by
  cases e with
  | alarm_expired => simp [is_power_up] at he
  | poll res errno => simp [is_power_up] at he
  | next_event i res ev =>
    simp only [is_power_up, decide_eq_true_eq] at he
    obtain ⟨h1, h2⟩ := he
    subst h1 h2
    simp [step, handle_event, power_key, hs]

theorem run_idle_timer_wakeups (xs : List Input) (s : State) (hs : s.press_active = false)
    (hxs : ∀ x ∈ xs, is_timer_wakeup x = true) :
    (run s xs).presses = s.presses ∧ (run s xs).press_active = false
      ∧ (run s xs).devs = s.devs := by
  induction xs generalizing s with
  | nil => exact ⟨rfl, hs, rfl⟩
  | cons x xs ih =>
    rw [run_cons]
    obtain ⟨h1, h2, h3⟩ := idle_timer_wakeup s x hs (hxs x (List.mem_cons_self x xs))
    obtain ⟨g1, g2, g3⟩ := ih (step s x) h2 (fun y hy => hxs y (List.mem_cons_of_mem x hy))
    exact ⟨g1.trans h1, g2, g3.trans h3⟩

/-! ## The press classifier: claims C1 to C4 -/

/-- Claim C1: Fed any inputs from the initial state, a step `r` that dispatches dispatches
exactly once, and after it no power-key up and no timer wakeup dispatches as long as
no power-key down has come in between. -/
theorem no_double_dispatch (devs : List evdev_context) (before : List Input) (r : Input)
    (between : List Input) (e : Input)
    (hr : (step (run (init devs) before) r).presses ≠ (run (init devs) before).presses)
    (hbetween : ∀ x ∈ between, is_power_down x = false)
    (he : is_power_up e = true ∨ is_timer_wakeup e = true) :
    (∃ k, (step (run (init devs) before) r).presses = (run (init devs) before).presses ++ [k])
      ∧ (step (run (init devs) (before ++ r :: between)) e).presses
          = (run (init devs) (before ++ r :: between)).presses := by
  obtain ⟨h1, h2⟩ := step_dispatch _ _ hr
  refine ⟨h1, ?_⟩
  have h3 : (run (init devs) (before ++ r :: between)).press_active = false := by
    rw [run_append, run_cons]
    exact run_stays_idle between _ h2 hbetween
  rcases he with he | he
  · rw [idle_power_up _ e h3 he]
  · exact (idle_timer_wakeup _ e h3 he).1

theorem no_double_dispatch_witness :
    ((step (run (init []) [decoded 0 (power_key 1)]) (decoded 0 (power_key 0))).presses
        ≠ (run (init []) [decoded 0 (power_key 1)]).presses
      ∧ (∀ x ∈ [Input.alarm_expired], is_power_down x = false)
      ∧ (is_power_up (Input.poll (-1) EINTR) = true
          ∨ is_timer_wakeup (Input.poll (-1) EINTR) = true))
    ∧ (∃ k, (step (run (init []) [decoded 0 (power_key 1)]) (decoded 0 (power_key 0))).presses
          = (run (init []) [decoded 0 (power_key 1)]).presses ++ [k])
    ∧ (step (run (init []) ([decoded 0 (power_key 1)] ++ decoded 0 (power_key 0)
            :: [Input.alarm_expired])) (Input.poll (-1) EINTR)).presses
          = (run (init []) ([decoded 0 (power_key 1)] ++ decoded 0 (power_key 0)
            :: [Input.alarm_expired])).presses :=
  ⟨⟨by decide, by decide, by decide⟩,
    no_double_dispatch [] [decoded 0 (power_key 1)] (decoded 0 (power_key 0))
      [Input.alarm_expired] (Input.poll (-1) EINTR) (by decide) (by decide) (by decide)⟩

theorem step_power_down (s : State) (i : Nat) :
    step s (decoded i (power_key 1)) = alarm 1 { s with press_active := true } := by
  simp [step, decoded, handle_event, power_key]

theorem step_power_up_active (s : State) (i : Nat) (hs : s.press_active = true) :
    step s (decoded i (power_key 0))
      = do_press PressType.short { s with press_active := false } := by
  simp [step, decoded, handle_event, power_key, hs]

theorem step_lid_close (s : State) (i : Nat) :
    step s (decoded i (lid_switch 1))
      = do_press PressType.short { s with press_active := false } := by
  simp [step, decoded, handle_event, lid_switch, EV_SW, EV_KEY]

theorem step_interrupted (s : State) (x : Input) (hx : is_interrupted x = true)
    (h1 : s.press_active = true) (h2 : s.got_alarm = true) :
    step s x = do_press PressType.long { s with press_active := false } := by
  cases x with
  | alarm_expired => simp [is_interrupted] at hx
  | poll res errno =>
    simp only [is_interrupted, decide_eq_true_eq] at hx
    simp [step, hx, h1, h2]
  | next_event i res ev =>
    simp only [is_interrupted, decide_eq_true_eq] at hx
    subst hx
    simp [step, h1, h2, EINTR, LIBEVDEV_READ_STATUS_SUCCESS]

/-- Case analysis on the result of `handle_event` that keeps track of which events
reach `do_press`. -/
theorem handle_event_cases_press (P : State → Prop) (i : Nat) (ev : input_event) (s : State)
    (h_down : P (alarm 1 { s with press_active := true }))
    (h_press : ∀ k, ((ev = power_key 0 ∧ s.press_active = true) ∨ ev = lid_switch 1
        ∨ ev = f16_key 1) → P (do_press k { s with press_active := false }))
    (h_mod : ∀ m, P (set_modifiers s i m))
    (h_same : P s) : P (handle_event i ev s) := by
  obtain ⟨t, c, v⟩ := ev
  unfold handle_event
  repeat' (apply ite_ind P <;> intro _)
  all_goals first
    | exact h_same
    | exact h_mod _
    | exact h_down
    | (rename_i ht hc _ hv
       simp only at ht hc hv
       obtain ⟨hv, hp⟩ := hv
       subst ht hc hv
       exact h_press _ (Or.inl ⟨rfl, hp⟩))
    | (rename_i hv
       simp only at hv
       obtain ⟨hc, hv⟩ := hv
       have ht : t = EV_SW := by assumption
       subst ht hc hv
       exact h_press _ (Or.inr (Or.inl rfl)))
    | (rename_i hc hv
       simp only at hc hv
       obtain ⟨hv, _⟩ := hv
       have ht : t = EV_KEY := by assumption
       subst ht hc hv
       exact h_press _ (Or.inr (Or.inr rfl)))

/-- A quiet input leaves a pending press pending. -/
theorem step_press_pending (g : Bool) (p : List PressType) (s : State) (x : Input)
    (hs : press_pending g p s) (hx : is_quiet g x = true) :
    press_pending g p (step s x) := by
  obtain ⟨h1, h2, h3, h4⟩ := hs
  cases x with
  | alarm_expired => exact absurd hx (by simp [is_quiet])
  | poll res errno =>
    simp only [is_quiet, Bool.not_eq_true', Bool.and_eq_false_iff, decide_eq_false_iff_not] at hx
    simp only [step]
    apply ite_ind (press_pending g p)
    · intro hc
      rcases hx with hx | hx
      · exact absurd ⟨hc.1, hc.2.1⟩ hx
      · rw [h3, hx] at hc
        exact absurd hc.2.2.2 (by simp)
    · intro _
      exact ⟨h1, h2, h3, h4⟩
  | next_event i res ev =>
    simp only [is_quiet] at hx
    simp only [step]
    apply ite_ind (press_pending g p)
    · intro hr
      rw [if_pos hr] at hx
      simp only [decide_eq_true_eq] at hx
      apply handle_event_cases_press (press_pending g p)
      · exact ⟨rfl, rfl, h3, h4⟩
      · intro k hk
        rcases hk with ⟨hk, _⟩ | hk | hk
        · exact absurd hk hx.1
        · exact absurd hk hx.2.1
        · exact absurd hk hx.2.2
      · intro m
        exact ⟨h1, h2, h3, h4⟩
      · exact ⟨h1, h2, h3, h4⟩
    · intro hr
      rw [if_neg hr] at hx
      simp only [Bool.not_eq_true', Bool.and_eq_false_iff, decide_eq_false_iff_not] at hx
      apply ite_ind (press_pending g p)
      · intro hc
        rcases hx with hx | hx
        · exact absurd hc.1 hx
        · rw [h3, hx] at hc
          exact absurd hc.2.2 (by simp)
      · intro _
        exact ⟨h1, h2, h3, h4⟩

theorem run_press_pending (g : Bool) (p : List PressType) (xs : List Input) (s : State)
    (hs : press_pending g p s) (hxs : ∀ x ∈ xs, is_quiet g x = true) :
    press_pending g p (run s xs) := by
  induction xs generalizing s with
  | nil => exact hs
  | cons x xs ih =>
    rw [run_cons]
    apply ih
    · exact step_press_pending g p s x hs (hxs x (List.mem_cons_self x xs))
    · intro y hy
      exact hxs y (List.mem_cons_of_mem x hy)

/-- Once the timer of an active press has expired, a further expiry and every input
that is quiet with `got_alarm` set leave the press waiting to be acted on. -/
theorem step_press_expired (p : List PressType) (s : State) (x : Input)
    (hs : press_expired p s) (hx : x = Input.alarm_expired ∨ is_quiet true x = true) :
    press_expired p (step s x) := by
  obtain ⟨h1, h3, h4⟩ := hs
  cases x with
  | alarm_expired =>
    simp only [step]
    apply ite_ind (press_expired p)
    · intro _
      exact ⟨h1, rfl, h4⟩
    · intro _
      exact ⟨h1, h3, h4⟩
  | poll res errno =>
    have hq : is_quiet true (Input.poll res errno) = true := by
      rcases hx with hx | hx
      · exact absurd hx (by simp)
      · exact hx
    simp only [is_quiet, Bool.and_true, Bool.not_eq_true', decide_eq_false_iff_not] at hq
    simp only [step]
    apply ite_ind (press_expired p)
    · intro hc
      exact absurd ⟨hc.1, hc.2.1⟩ hq
    · intro _
      exact ⟨h1, h3, h4⟩
  | next_event i res ev =>
    have hq : is_quiet true (Input.next_event i res ev) = true := by
      rcases hx with hx | hx
      · exact absurd hx (by simp)
      · exact hx
    simp only [is_quiet] at hq
    simp only [step]
    apply ite_ind (press_expired p)
    · intro hr
      rw [if_pos hr] at hq
      simp only [decide_eq_true_eq] at hq
      apply handle_event_cases_press (press_expired p)
      · exact ⟨rfl, h3, h4⟩
      · intro k hk
        rcases hk with ⟨hk, _⟩ | hk | hk
        · exact absurd hk hq.1
        · exact absurd hk hq.2.1
        · exact absurd hk hq.2.2
      · intro m
        exact ⟨h1, h3, h4⟩
      · exact ⟨h1, h3, h4⟩
    · intro hr
      rw [if_neg hr] at hq
      simp only [Bool.and_true, Bool.not_eq_true', decide_eq_false_iff_not] at hq
      apply ite_ind (press_expired p)
      · intro hc
        exact absurd hc.1 hq
      · intro _
        exact ⟨h1, h3, h4⟩

theorem run_press_expired (p : List PressType) (xs : List Input) (s : State)
    (hs : press_expired p s)
    (hxs : ∀ x ∈ xs, x = Input.alarm_expired ∨ is_quiet true x = true) :
    press_expired p (run s xs) := by
  induction xs generalizing s with
  | nil => exact hs
  | cons x xs ih =>
    rw [run_cons]
    apply ih
    · exact step_press_expired p s x hs (hxs x (List.mem_cons_self x xs))
    · intro y hy
      exact hxs y (List.mem_cons_of_mem x hy)

/-- Claim C2: From any state, a power-key down (on device `i`) followed by a power-key
up (on device `j`), with any quiet inputs in between (returns of `poll`, failed reads
and decoded events that are neither the expiry of the timer nor its observation, nor a
lid close, an F16 down or another power-key up), makes one call `do_press short`,
clears `press_active`, cancels the alarm and resets `got_alarm`; whatever timer
wakeups follow, the calls made stay that one. -/
theorem power_down_up_short (s : State) (i j : Nat) (between later : List Input)
    (hbetween : ∀ x ∈ between, is_quiet s.got_alarm x = true)
    (hlater : ∀ x ∈ later, is_timer_wakeup x = true) :
    run s (decoded i (power_key 1) :: between ++ [decoded j (power_key 0)])
        = { run s (decoded i (power_key 1) :: between) with
              press_active := false, got_alarm := false, timer := 0,
              presses := s.presses ++ [PressType.short] }
      ∧ (run s (decoded i (power_key 1) :: between)).presses = s.presses
      ∧ (run s (decoded i (power_key 1) :: between ++ [decoded j (power_key 0)]
          ++ later)).presses = s.presses ++ [PressType.short] := by
  have hp : press_pending s.got_alarm s.presses (run s (decoded i (power_key 1) :: between)) := by
    rw [run_cons, step_power_down]
    exact run_press_pending _ _ between _ ⟨rfl, rfl, rfl, rfl⟩ hbetween
  have h : run s (decoded i (power_key 1) :: between ++ [decoded j (power_key 0)])
      = { run s (decoded i (power_key 1) :: between) with
            press_active := false, got_alarm := false, timer := 0,
            presses := s.presses ++ [PressType.short] } := by
    rw [run_append, run_cons, run_nil, step_power_up_active _ _ hp.1]
    simp only [do_press, alarm, hp.2.2.2]
  refine ⟨h, hp.2.2.2, ?_⟩
  rw [run_append, (run_idle_timer_wakeups later _ (by rw [h]) hlater).1, h]

theorem power_down_up_short_witness :
    ((∀ x ∈ [decoded 0 ⟨0, 0, 0⟩, Input.poll 1 0, decoded 0 ⟨EV_KEY, KEY_LEFTSHIFT, 1⟩,
          Input.poll (-1) EINTR, Input.next_event 0 (-EAGAIN) ⟨0, 0, 0⟩],
        is_quiet (init sample_devs).got_alarm x = true)
      ∧ (∀ x ∈ [Input.alarm_expired, Input.poll (-1) EINTR], is_timer_wakeup x = true))
    ∧ run (init sample_devs) (decoded 0 (power_key 1)
          :: [decoded 0 ⟨0, 0, 0⟩, Input.poll 1 0, decoded 0 ⟨EV_KEY, KEY_LEFTSHIFT, 1⟩,
              Input.poll (-1) EINTR, Input.next_event 0 (-EAGAIN) ⟨0, 0, 0⟩]
          ++ [decoded 1 (power_key 0)])
        = { run (init sample_devs) (decoded 0 (power_key 1)
              :: [decoded 0 ⟨0, 0, 0⟩, Input.poll 1 0, decoded 0 ⟨EV_KEY, KEY_LEFTSHIFT, 1⟩,
                  Input.poll (-1) EINTR, Input.next_event 0 (-EAGAIN) ⟨0, 0, 0⟩]) with
              press_active := false, got_alarm := false, timer := 0,
              presses := (init sample_devs).presses ++ [PressType.short] } :=
  ⟨⟨by decide, by decide⟩,
    (power_down_up_short (init sample_devs) 0 1
      [decoded 0 ⟨0, 0, 0⟩, Input.poll 1 0, decoded 0 ⟨EV_KEY, KEY_LEFTSHIFT, 1⟩,
        Input.poll (-1) EINTR, Input.next_event 0 (-EAGAIN) ⟨0, 0, 0⟩]
      [Input.alarm_expired, Input.poll (-1) EINTR] (by decide) (by decide)).1⟩

/-- Claim C3: From any state, a power-key down followed by the expiry of the alarm and
then by an interrupted `poll` or an interrupted read, with no power-key up in between
(in between come only quiet inputs: returns of `poll`, failed reads and decoded events
that are no observation of the expiry, no lid close, no F16 down and no power-key up;
after the expiry the alarm may expire again), makes one call `do_press long` and
leaves the classifier idle with no alarm pending; a power-key up after that changes
nothing. -/
theorem power_down_timeout_long (s : State) (i j : Nat) (before after : List Input)
    (obs : Input)
    (hbefore : ∀ x ∈ before, is_quiet s.got_alarm x = true)
    (hafter : ∀ x ∈ after, x = Input.alarm_expired ∨ is_quiet true x = true)
    (hobs : is_interrupted obs = true) :
    run s (decoded i (power_key 1) :: before ++ Input.alarm_expired :: after ++ [obs])
        = { run s (decoded i (power_key 1) :: before ++ Input.alarm_expired :: after) with
              press_active := false, got_alarm := false, timer := 0,
              presses := s.presses ++ [PressType.long] }
      ∧ (run s (decoded i (power_key 1) :: before ++ Input.alarm_expired :: after)).presses
          = s.presses
      ∧ run s (decoded i (power_key 1) :: before ++ Input.alarm_expired :: after
            ++ [obs, decoded j (power_key 0)])
          = run s (decoded i (power_key 1) :: before ++ Input.alarm_expired :: after
            ++ [obs]) := by
  have hp : press_pending s.got_alarm s.presses (run s (decoded i (power_key 1) :: before)) := by
    rw [run_cons, step_power_down]
    exact run_press_pending _ _ before _ ⟨rfl, rfl, rfl, rfl⟩ hbefore
  have he : press_expired s.presses
      (run s (decoded i (power_key 1) :: before ++ Input.alarm_expired :: after)) := by
    rw [run_append, run_cons]
    apply run_press_expired _ after _ _ hafter
    have ht : (run s (decoded i (power_key 1) :: before)).timer ≠ 0 := by
      rw [hp.2.1]; decide
    simp only [step, if_pos ht]
    exact ⟨hp.1, rfl, hp.2.2.2⟩
  have h : run s (decoded i (power_key 1) :: before ++ Input.alarm_expired :: after ++ [obs])
      = { run s (decoded i (power_key 1) :: before ++ Input.alarm_expired :: after) with
            press_active := false, got_alarm := false, timer := 0,
            presses := s.presses ++ [PressType.long] } := by
    rw [run_append, run_cons, run_nil, step_interrupted _ obs hobs he.1 he.2.1]
    simp only [do_press, alarm, he.2.2]
  refine ⟨h, he.2.2, ?_⟩
  have h2 : run s (decoded i (power_key 1) :: before ++ Input.alarm_expired :: after
        ++ [obs, decoded j (power_key 0)])
      = step (run s (decoded i (power_key 1) :: before ++ Input.alarm_expired :: after
          ++ [obs])) (decoded j (power_key 0)) := by
    simp [run, List.foldl_append]
  rw [h2]
  apply idle_power_up
  · rw [h]
  · simp [is_power_up, decoded]

theorem power_down_timeout_long_witness :
    ((∀ x ∈ [decoded 0 ⟨0, 0, 0⟩, Input.poll 0 0], is_quiet (init sample_devs).got_alarm x = true)
      ∧ (∀ x ∈ [Input.poll 1 0, decoded 1 ⟨EV_KEY, KEY_LEFTCTRL, 1⟩],
          x = Input.alarm_expired ∨ is_quiet true x = true)
      ∧ is_interrupted (Input.next_event 1 (-EINTR) (power_key 7)) = true)
    ∧ run (init sample_devs) (decoded 0 (power_key 1) :: [decoded 0 ⟨0, 0, 0⟩, Input.poll 0 0]
          ++ Input.alarm_expired :: [Input.poll 1 0, decoded 1 ⟨EV_KEY, KEY_LEFTCTRL, 1⟩]
          ++ [Input.next_event 1 (-EINTR) (power_key 7)])
        = { run (init sample_devs) (decoded 0 (power_key 1)
              :: [decoded 0 ⟨0, 0, 0⟩, Input.poll 0 0]
              ++ Input.alarm_expired :: [Input.poll 1 0, decoded 1 ⟨EV_KEY, KEY_LEFTCTRL, 1⟩])
            with press_active := false, got_alarm := false, timer := 0,
                 presses := (init sample_devs).presses ++ [PressType.long] } :=
  ⟨⟨by decide, by decide, by decide⟩,
    (power_down_timeout_long (init sample_devs) 0 0 [decoded 0 ⟨0, 0, 0⟩, Input.poll 0 0]
      [Input.poll 1 0, decoded 1 ⟨EV_KEY, KEY_LEFTCTRL, 1⟩]
      (Input.next_event 1 (-EINTR) (power_key 7)) (by decide) (by decide) (by decide)).1⟩

/-- Claim C4: In every state a lid-switch event with value 1 makes one call
`do_press short`, clears `press_active`, cancels the alarm and resets `got_alarm`, and
touches nothing else; whatever timer wakeups follow, the calls made stay that one. -/
theorem lid_close_short (s : State) (i : Nat) (later : List Input)
    (hlater : ∀ x ∈ later, is_timer_wakeup x = true) :
    step s (decoded i (lid_switch 1))
        = { s with press_active := false, got_alarm := false, timer := 0,
                   presses := s.presses ++ [PressType.short] }
      ∧ (run s (decoded i (lid_switch 1) :: later)).presses
          = s.presses ++ [PressType.short] := by
  have h : step s (decoded i (lid_switch 1))
      = { s with press_active := false, got_alarm := false, timer := 0,
                 presses := s.presses ++ [PressType.short] } := by
    rw [step_lid_close]; rfl
  refine ⟨h, ?_⟩
  rw [run_cons, (run_idle_timer_wakeups later _ (by rw [h]) hlater).1, h]

theorem lid_close_short_witness :
    (∀ x ∈ [Input.alarm_expired, Input.poll (-1) EINTR], is_timer_wakeup x = true)
    ∧ step (alarm 1 { init [] with press_active := true }) (decoded 0 (lid_switch 1))
        = { alarm 1 { init [] with press_active := true } with
              press_active := false, got_alarm := false, timer := 0,
              presses := (alarm 1 { init [] with press_active := true }).presses
                ++ [PressType.short] }
    ∧ (run (alarm 1 { init [] with press_active := true })
          (decoded 0 (lid_switch 1) :: [Input.alarm_expired, Input.poll (-1) EINTR])).presses
        = (alarm 1 { init [] with press_active := true }).presses ++ [PressType.short] :=
  ⟨by decide, lid_close_short (alarm 1 { init [] with press_active := true }) 0
    [Input.alarm_expired, Input.poll (-1) EINTR] (by decide)⟩

/-! ## The hotkey guard: claim C5 -/

theorem testBit_all_ones (j : Nat) : (0xFFFFFFFF : Nat).testBit j = decide (j < 32) := by
  have h2 : (0xFFFFFFFF : Nat) = 2 ^ 32 - 1 := by norm_num
  rw [h2, Nat.testBit_two_pow_sub_one]

theorem testBit_bnot (b j : Nat) :
    (bnot b).testBit j = xor (b.testBit j) (decide (j < 32)) := by
  unfold bnot
  rw [Nat.testBit_xor, testBit_all_ones]

theorem and_eq_zero_iff_bits (m c : Nat) :
    m &&& c = 0 ↔ ∀ j, m.testBit j = true → c.testBit j = false := by
  constructor
  · intro h j hj
    have h1 : (m &&& c).testBit j = false := by rw [h]; exact Nat.zero_testBit j
    rw [Nat.testBit_and, hj] at h1
    simpa using h1
  · intro h
    apply Nat.eq_of_testBit_eq
    intro j
    rw [Nat.testBit_and, Nat.zero_testBit]
    cases hj : m.testBit j with
    | false => rfl
    | true => rw [h j hj]; rfl

theorem testBit_MOD_META (j : Nat) : MOD_META.testBit j = (decide (j = 6) || decide (j = 7)) := by
  have h : MOD_META = 2 ^ 6 ||| 2 ^ 7 := by decide
  rw [h, Nat.testBit_or, Nat.testBit_two_pow, Nat.testBit_two_pow]
  simp [eq_comm]

theorem meta_only_eq_true (m : Nat) :
    meta_only m = true ↔
      (m.testBit 6 = true ∨ m.testBit 7 = true)
        ∧ ∀ j, j < 32 → j ≠ 6 → j ≠ 7 → m.testBit j = false := by
  unfold meta_only
  simp only [Bool.and_eq_true, Bool.or_eq_true, List.all_eq_true, List.mem_range, beq_iff_eq,
    Bool.not_eq_true']
  constructor
  · rintro ⟨h1, h2⟩
    refine ⟨h1, fun j hj h6 h7 => ?_⟩
    rcases h2 j hj with (h | h) | h
    · exact absurd h h6
    · exact absurd h h7
    · exact h
  · rintro ⟨h1, h2⟩
    refine ⟨h1, fun j hj => ?_⟩
    by_cases h6 : j = 6
    · exact Or.inl (Or.inl h6)
    · by_cases h7 : j = 7
      · exact Or.inl (Or.inr h7)
      · exact Or.inr (h2 j hj h6 h7)

/-- The test of line 271 is the test `meta_only`. -/
theorem guard_iff_meta_only (m : Nat) :
    (m &&& MOD_META ≠ 0 ∧ m &&& bnot MOD_META = 0) ↔ meta_only m = true := by
  rw [meta_only_eq_true, and_eq_zero_iff_bits, Ne, and_eq_zero_iff_bits]
  constructor
  · rintro ⟨h1, h2⟩
    constructor
    · by_contra hc
      apply h1
      intro j hj
      rw [testBit_MOD_META]
      by_cases h6 : j = 6
      · subst h6; exact absurd (Or.inl hj) hc
      · by_cases h7 : j = 7
        · subst h7; exact absurd (Or.inr hj) hc
        · simp [h6, h7]
    · intro j hj h6 h7
      by_contra hc
      have hb : m.testBit j = true := by simpa using hc
      have := h2 j hb
      rw [testBit_bnot, testBit_MOD_META] at this
      simp [h6, h7, hj] at this
  · rintro ⟨h1, h2⟩
    constructor
    · intro hc
      rcases h1 with h | h
      · have := hc 6 h
        rw [testBit_MOD_META] at this
        simp at this
      · have := hc 7 h
        rw [testBit_MOD_META] at this
        simp at this
    · intro j hj
      rw [testBit_bnot, testBit_MOD_META]
      by_cases h32 : j < 32
      · by_cases h6 : j = 6
        · simp [h6]
        · by_cases h7 : j = 7
          · simp [h7]
          · have := h2 j h32 h6 h7
            rw [hj] at this
            exact absurd this (by simp)
      · have h6 : j ≠ 6 := by omega
        have h7 : j ≠ 7 := by omega
        simp [h32, h6, h7]

/-- Claim C5: An F16 down on device `i`: if the mask of that device has a meta bit set
and no other of its 32 bits set, the step makes one call `do_press long`, clears
`press_active`, cancels the alarm and resets `got_alarm`; for every other mask the
step leaves the state as it is. -/
theorem hotkey_meta_only (s : State) (i : Nat) :
    (meta_only (modifiers s i) = true →
        step s (decoded i (f16_key 1))
          = { s with press_active := false, got_alarm := false, timer := 0,
                     presses := s.presses ++ [PressType.long] })
      ∧ (meta_only (modifiers s i) = false → step s (decoded i (f16_key 1)) = s) := by
  have h := guard_iff_meta_only (modifiers s i)
  constructor
  · intro hmeta
    have hg := h.mpr hmeta
    simp only [step, decoded, if_true, handle_event, f16_key]
    simp [EV_KEY, KEY_F16, KEY_POWER, KEY_LEFTSHIFT, KEY_RIGHTSHIFT, KEY_LEFTCTRL,
      KEY_RIGHTCTRL, KEY_LEFTALT, KEY_RIGHTALT, KEY_LEFTMETA, KEY_RIGHTMETA, hg.1, hg.2,
      do_press, alarm]
  · intro hmeta
    have hg : ¬ (modifiers s i &&& MOD_META ≠ 0 ∧ modifiers s i &&& bnot MOD_META = 0) := by
      intro hg
      rw [h.mp hg] at hmeta
      exact absurd hmeta (by simp)
    simp only [step, decoded, if_true, handle_event, f16_key]
    simp only [EV_KEY, KEY_F16, KEY_POWER, KEY_LEFTSHIFT, KEY_RIGHTSHIFT, KEY_LEFTCTRL,
      KEY_RIGHTCTRL, KEY_LEFTALT, KEY_RIGHTALT, KEY_LEFTMETA, KEY_RIGHTMETA] at hg ⊢
    simp [hg]

theorem hotkey_meta_only_witness :
    (meta_only (modifiers { init sample_devs with press_active := true, timer := 1 } 1) = true
      ∧ step { init sample_devs with press_active := true, timer := 1 } (decoded 1 (f16_key 1))
          = { init sample_devs with presses := [PressType.long] })
    ∧ (meta_only (modifiers { init sample_devs with press_active := true, timer := 1 } 0) = false
      ∧ step { init sample_devs with press_active := true, timer := 1 } (decoded 0 (f16_key 1))
          = { init sample_devs with press_active := true, timer := 1 }) :=
  ⟨⟨by decide,
      (hotkey_meta_only { init sample_devs with press_active := true, timer := 1 } 1).1
        (by decide)⟩,
    ⟨by decide,
      (hotkey_meta_only { init sample_devs with press_active := true, timer := 1 } 0).2
        (by decide)⟩⟩

/-! ## Modifier tracking: claims C6 and C7 -/

/-- The eight modifier cases of the switch, read off the table `modifier_keys`. -/
theorem handle_modifier_key (code k : Nat) (hk : (code, k) ∈ modifier_keys) (i : Nat)
    (v : Int) (s : State) :
    step s (decoded i ⟨EV_KEY, code, v⟩)
      = set_modifiers s i (track_modifier (2 ^ k) v (modifiers s i)) := by
  simp only [modifier_keys, List.mem_cons, Prod.mk.injEq, List.mem_singleton, List.mem_nil_iff,
    or_false] at hk
  rcases hk with h | h | h | h | h | h | h | h <;>
  · obtain ⟨hcode, hbit⟩ := h
    subst hcode hbit
    simp only [step, decoded, if_true, handle_event]
    simp [EV_KEY, KEY_POWER, KEY_LEFTSHIFT, KEY_RIGHTSHIFT, KEY_LEFTCTRL,
      KEY_RIGHTCTRL, KEY_LEFTALT, KEY_RIGHTALT, KEY_LEFTMETA, KEY_RIGHTMETA, MOD_LSHIFT,
      MOD_RSHIFT, MOD_LCTRL, MOD_RCTRL, MOD_LALT, MOD_RALT, MOD_LMETA, MOD_RMETA]

theorem modifier_keys_bit (code k : Nat) (hk : (code, k) ∈ modifier_keys) : k < 8 := by
  simp only [modifier_keys, List.mem_cons, Prod.mk.injEq, List.mem_singleton, List.mem_nil_iff,
    or_false] at hk
  omega

/-- Bit `k` of the tracked mask is the sign test of the event value. -/
theorem track_modifier_bit (k : Nat) (hk : k < 32) (v : Int) (m : Nat) :
    (track_modifier (2 ^ k) v m).testBit k = decide (0 < v) := by
  unfold track_modifier bnot
  by_cases hv : 0 < v
  · simp [hv, Nat.testBit_or, Nat.testBit_two_pow]
  · simp [hv, Nat.testBit_and, Nat.testBit_xor, Nat.testBit_two_pow, testBit_all_ones, hk]

/-- The other bits of the mask are kept. -/
theorem track_modifier_other (k : Nat) (v : Int) (m : Nat) (j : Nat) (hj32 : j < 32)
    (hj : j ≠ k) : (track_modifier (2 ^ k) v m).testBit j = m.testBit j := by
  unfold track_modifier bnot
  have hkj : ¬ k = j := fun h => hj h.symm
  by_cases hv : 0 < v <;>
    simp [hv, Nat.testBit_or, Nat.testBit_and, Nat.testBit_xor, Nat.testBit_two_pow,
      testBit_all_ones, hkj, hj32]

theorem modifiers_set_modifiers_eq (s : State) (i m : Nat) (hi : i < s.devs.length) :
    modifiers (set_modifiers s i m) i = m := by
  simp [modifiers, set_modifiers, List.getElem?_modify_eq, List.getElem?_eq_getElem hi]

theorem modifiers_set_modifiers_ne (s : State) (i i2 m : Nat) (h : i2 ≠ i) :
    modifiers (set_modifiers s i m) i2 = modifiers s i2 := by
  simp [modifiers, set_modifiers, List.getElem?_modify_ne _ _ (Ne.symm h)]

theorem map_dev_set_modifiers (s : State) (i m : Nat) :
    (set_modifiers s i m).devs.map (fun ctx => ctx.dev) = s.devs.map (fun ctx => ctx.dev) := by
  simp only [set_modifiers]
  generalize s.devs = l
  induction l generalizing i with
  | nil => simp
  | cons a l ih =>
    cases i with
    | zero => simp
    | succ n => simp [ih n]

theorem set_modifiers_twice (s : State) (i a b : Nat) :
    set_modifiers (set_modifiers s i a) i b = set_modifiers s i b := by
  simp only [set_modifiers, List.modify_modify_eq]
  rfl

theorem set_modifiers_out_of_range (s : State) (i m : Nat) (hi : s.devs.length ≤ i) :
    set_modifiers s i m = s := by
  simp only [set_modifiers, List.modify_eq_self hi]

theorem track_modifier_twice (b : Nat) (v : Int) (m : Nat) :
    track_modifier b v (track_modifier b v m) = track_modifier b v m := by
  apply Nat.eq_of_testBit_eq
  intro j
  unfold track_modifier
  by_cases hv : 0 < v
  · simp only [gt_iff_lt, hv, if_true, Nat.testBit_or, Nat.testBit_and]
    cases m.testBit j <;> cases (bnot b).testBit j <;> cases b.testBit j <;> rfl
  · simp only [gt_iff_lt, hv, if_false, Nat.testBit_and]
    cases m.testBit j <;> cases (bnot b).testBit j <;> rfl

/-- Claim C6: A key event for one of the eight modifier keys on an opened device `i`:
the key's bit of that device's mask is set when the value is positive and cleared when
it is zero, each of the other 31 bits of the mask is kept, the masks of the other
devices and all handles are kept, `press_active`, the alarm and `got_alarm` are kept,
and `do_press` is not called. -/
theorem modifier_key_frame (code k : Nat) (hkey : (code, k) ∈ modifier_keys) (s : State)
    (i : Nat) (v : Int) (hi : i < s.devs.length) :
    (0 < v → (modifiers (step s (decoded i ⟨EV_KEY, code, v⟩)) i).testBit k = true)
      ∧ (v = 0 → (modifiers (step s (decoded i ⟨EV_KEY, code, v⟩)) i).testBit k = false)
      ∧ (∀ j, j < 32 → j ≠ k →
          (modifiers (step s (decoded i ⟨EV_KEY, code, v⟩)) i).testBit j
            = (modifiers s i).testBit j)
      ∧ (∀ i2, i2 ≠ i → modifiers (step s (decoded i ⟨EV_KEY, code, v⟩)) i2 = modifiers s i2)
      ∧ (step s (decoded i ⟨EV_KEY, code, v⟩)).devs.map (fun ctx => ctx.dev)
          = s.devs.map (fun ctx => ctx.dev)
      ∧ (step s (decoded i ⟨EV_KEY, code, v⟩)).press_active = s.press_active
      ∧ (step s (decoded i ⟨EV_KEY, code, v⟩)).timer = s.timer
      ∧ (step s (decoded i ⟨EV_KEY, code, v⟩)).got_alarm = s.got_alarm
      ∧ (step s (decoded i ⟨EV_KEY, code, v⟩)).presses = s.presses := by
  have hk : k < 32 := lt_trans (modifier_keys_bit code k hkey) (by norm_num)
  rw [handle_modifier_key code k hkey]
  refine ⟨?_, ?_, ?_, ?_, map_dev_set_modifiers _ _ _, rfl, rfl, rfl, rfl⟩
  · intro hv
    rw [modifiers_set_modifiers_eq s i _ hi, track_modifier_bit k hk]
    exact decide_eq_true hv
  · intro hv
    rw [modifiers_set_modifiers_eq s i _ hi, track_modifier_bit k hk]
    subst hv
    decide
  · intro j hj32 hj
    rw [modifiers_set_modifiers_eq s i _ hi]
    exact track_modifier_other k v _ j hj32 hj
  · intro i2 h2
    exact modifiers_set_modifiers_ne s i i2 _ h2

theorem modifier_key_frame_witness :
    ((KEY_LEFTCTRL, 2) ∈ modifier_keys ∧ 0 < (init sample_devs).devs.length)
    ∧ (modifiers (step (init sample_devs) (decoded 0 ⟨EV_KEY, KEY_LEFTCTRL, 1⟩)) 0).testBit 2
        = true
    ∧ (modifiers (step (init sample_devs) (decoded 0 ⟨EV_KEY, KEY_LEFTCTRL, 1⟩)) 0).testBit 6
        = (modifiers (init sample_devs) 0).testBit 6
    ∧ modifiers (step (init sample_devs) (decoded 0 ⟨EV_KEY, KEY_LEFTCTRL, 1⟩)) 1
        = modifiers (init sample_devs) 1
    ∧ (step (init sample_devs) (decoded 0 ⟨EV_KEY, KEY_LEFTCTRL, 1⟩)).presses
        = (init sample_devs).presses :=
  ⟨⟨by decide, by decide⟩,
    (modifier_key_frame KEY_LEFTCTRL 2 (by decide) (init sample_devs) 0 1 (by decide)).1
      (by decide),
    (modifier_key_frame KEY_LEFTCTRL 2 (by decide) (init sample_devs) 0 1 (by decide)).2.2.1
      6 (by decide) (by decide),
    (modifier_key_frame KEY_LEFTCTRL 2 (by decide) (init sample_devs) 0 1 (by decide)).2.2.2.1
      1 (by decide),
    (modifier_key_frame KEY_LEFTCTRL 2 (by decide) (init sample_devs) 0 1
      (by decide)).2.2.2.2.2.2.2.2⟩

/-- Claim C7: For every modifier key and every positive value: tracking the same key-down
twice gives the mask that tracking it once gives, whatever the mask, and a second
identical event leaves the whole state as the first left it. -/
theorem modifier_down_idempotent (code k : Nat) (hkey : (code, k) ∈ modifier_keys)
    (v : Int) (hv : 0 < v) :
    (∀ m, track_modifier (2 ^ k) v (track_modifier (2 ^ k) v m) = track_modifier (2 ^ k) v m)
      ∧ (∀ m, (track_modifier (2 ^ k) v m).testBit k = true)
      ∧ ∀ (s : State) (i : Nat),
          step (step s (decoded i ⟨EV_KEY, code, v⟩)) (decoded i ⟨EV_KEY, code, v⟩)
            = step s (decoded i ⟨EV_KEY, code, v⟩) := by
  have hk : k < 32 := lt_trans (modifier_keys_bit code k hkey) (by norm_num)
  refine ⟨fun m => track_modifier_twice _ v m, ?_, ?_⟩
  · intro m
    rw [track_modifier_bit k hk]
    exact decide_eq_true hv
  · intro s i
    rw [handle_modifier_key code k hkey, handle_modifier_key code k hkey]
    by_cases hi : i < s.devs.length
    · rw [modifiers_set_modifiers_eq s i _ hi, track_modifier_twice, set_modifiers_twice]
    · have h : ∀ m, set_modifiers s i m = s :=
        fun m => set_modifiers_out_of_range s i m (not_lt.mp hi)
      rw [h, h]

theorem modifier_down_idempotent_witness :
    ((KEY_RIGHTMETA, 7) ∈ modifier_keys ∧ (0 : Int) < 2)
    ∧ (∀ m, track_modifier (2 ^ 7) 2 (track_modifier (2 ^ 7) 2 m) = track_modifier (2 ^ 7) 2 m)
    ∧ (∀ m, (track_modifier (2 ^ 7) 2 m).testBit 7 = true)
    ∧ ∀ (s : State) (i : Nat),
        step (step s (decoded i ⟨EV_KEY, KEY_RIGHTMETA, 2⟩)) (decoded i ⟨EV_KEY, KEY_RIGHTMETA, 2⟩)
          = step s (decoded i ⟨EV_KEY, KEY_RIGHTMETA, 2⟩) :=
  ⟨⟨by decide, by decide⟩, modifier_down_idempotent KEY_RIGHTMETA 7 (by decide) 2 (by decide)⟩

/-! ## Device selection: claims C8 to C10 -/

theorem open_dev_eq (sys : String → DevNode) (path : String)
    (hopen : 0 ≤ (sys path).open_fd) (hinit : 0 ≤ (sys path).new_from_fd) :
    open_dev sys path =
      if supports (sys path) EV_KEY KEY_POWER ∨ supports (sys path) EV_SW SW_LID
          ∨ (supports (sys path) EV_KEY KEY_LEFTMETA ∧ supports (sys path) EV_KEY KEY_F16) then
        some ⟨path, (sys path).open_fd, (sys path).caps⟩
      else
        none := by
  unfold open_dev supports libevdev_has_event_code
  simp only [not_lt.mpr hopen, not_lt.mpr hinit, if_false]
  by_cases h1 : (EV_KEY, KEY_POWER) ∈ (sys path).caps <;>
    by_cases h2 : (EV_SW, SW_LID) ∈ (sys path).caps <;>
    by_cases h3 : (EV_KEY, KEY_LEFTMETA) ∈ (sys path).caps <;>
    by_cases h4 : (EV_KEY, KEY_F16) ∈ (sys path).caps <;>
    simp [h1, h2, h3, h4]

theorem open_dev_path (sys : String → DevNode) (p : String) (d : libevdev)
    (h : open_dev sys p = some d) : d.path = p := by
  unfold open_dev at h
  simp only at h
  split at h
  · exact absurd h (by simp)
  · split at h
    · exact absurd h (by simp)
    · split at h
      · exact absurd h (by simp)
      · simp only [Option.some.injEq] at h
        rw [← h]

/-- Claim C8: For a path that can be opened and initialised, `open_dev` returns true exactly
when the device supports the power key, or the lid switch, or both left meta and F16,
and then stores the handle of that path; with neither power key nor lid switch and
one of left meta and F16 missing it returns false. -/
theorem open_dev_accepts_iff (sys : String → DevNode) (path : String)
    (hopen : 0 ≤ (sys path).open_fd) (hinit : 0 ≤ (sys path).new_from_fd) :
    ((open_dev sys path).isSome = true ↔
        (supports (sys path) EV_KEY KEY_POWER ∨ supports (sys path) EV_SW SW_LID
          ∨ (supports (sys path) EV_KEY KEY_LEFTMETA ∧ supports (sys path) EV_KEY KEY_F16)))
      ∧ ((open_dev sys path).isSome = true →
          open_dev sys path = some ⟨path, (sys path).open_fd, (sys path).caps⟩)
      ∧ (¬ supports (sys path) EV_KEY KEY_POWER → ¬ supports (sys path) EV_SW SW_LID →
          (¬ supports (sys path) EV_KEY KEY_F16 ∨ ¬ supports (sys path) EV_KEY KEY_LEFTMETA) →
          open_dev sys path = none) := by
  rw [open_dev_eq sys path hopen hinit]
  refine ⟨?_, ?_, ?_⟩
  · split <;> simp_all
  · split <;> simp
  · intro h1 h2 h3
    rw [if_neg]
    rintro (h | h | ⟨h, h4⟩)
    · exact h1 h
    · exact h2 h
    · rcases h3 with h3 | h3
      · exact h3 h4
      · exact h3 h

theorem open_dev_accepts_iff_witness :
    (0 ≤ (sample_sys "/dev/input/event5").open_fd
      ∧ 0 ≤ (sample_sys "/dev/input/event5").new_from_fd)
    ∧ ((open_dev sample_sys "/dev/input/event5").isSome = true ↔
        (supports (sample_sys "/dev/input/event5") EV_KEY KEY_POWER
          ∨ supports (sample_sys "/dev/input/event5") EV_SW SW_LID
          ∨ (supports (sample_sys "/dev/input/event5") EV_KEY KEY_LEFTMETA
            ∧ supports (sample_sys "/dev/input/event5") EV_KEY KEY_F16))) :=
  ⟨⟨by decide, by decide⟩,
    (open_dev_accepts_iff sample_sys "/dev/input/event5" (by decide) (by decide)).1⟩

theorem open_args_cons_some (sys : String → DevNode) (p : String) (rest : List String)
    (devs : List evdev_context) (tried : List String) (d : libevdev)
    (h : devs.length < MAX_DEVS) (hd : open_dev sys p = some d) :
    open_args sys (p :: rest) devs tried
      = open_args sys rest (devs ++ [⟨d, 0⟩]) (tried ++ [p]) := by
  simp only [open_args, if_pos h, hd]

theorem open_args_cons_none (sys : String → DevNode) (p : String) (rest : List String)
    (devs : List evdev_context) (tried : List String)
    (h : devs.length < MAX_DEVS) (hd : open_dev sys p = none) :
    open_args sys (p :: rest) devs tried = open_args sys rest devs (tried ++ [p]) := by
  simp only [open_args, if_pos h, hd]

theorem open_args_cons_full (sys : String → DevNode) (p : String) (rest : List String)
    (devs : List evdev_context) (tried : List String) (h : ¬ devs.length < MAX_DEVS) :
    open_args sys (p :: rest) devs tried = (devs, tried) := by
  simp only [open_args, if_neg h]

/-- The paths of the slots the argument loop fills. -/
theorem open_args_paths (sys : String → DevNode) (rest : List String)
    (devs : List evdev_context) (tried : List String) :
    ((open_args sys rest devs tried).1).map (fun c => c.dev.path)
      = devs.map (fun c => c.dev.path)
          ++ (rest.filter (passes sys)).take (MAX_DEVS - devs.length) := by
  induction rest generalizing devs tried with
  | nil => simp [open_args]
  | cons p rest ih =>
    by_cases h : devs.length < MAX_DEVS
    · cases hd : open_dev sys p with
      | none =>
        have hp : passes sys p = false := by simp [passes, hd]
        rw [open_args_cons_none sys p rest devs tried h hd, ih]
        simp [hp]
      | some d =>
        have hp : passes sys p = true := by simp [passes, hd]
        have hlen : MAX_DEVS - devs.length = (MAX_DEVS - (devs.length + 1)) + 1 := by omega
        rw [open_args_cons_some sys p rest devs tried d h hd, ih,
          List.filter_cons_of_pos hp, hlen, List.take_succ_cons]
        simp [open_dev_path sys p d hd]
    · rw [open_args_cons_full sys p rest devs tried h]
      have hlen : MAX_DEVS - devs.length = 0 := by omega
      simp [hlen]

/-- Every slot the argument loop fills holds the handle `open_dev` gave for its path,
with mask 0. -/
theorem open_args_slots (sys : String → DevNode) (rest : List String)
    (devs : List evdev_context) (tried : List String) :
    ∀ c ∈ (open_args sys rest devs tried).1,
      c ∈ devs ∨ (open_dev sys c.dev.path = some c.dev ∧ c.modifiers = 0) := by
  induction rest generalizing devs tried with
  | nil => intro c hc; exact Or.inl hc
  | cons p rest ih =>
    intro c hc
    by_cases h : devs.length < MAX_DEVS
    · cases hd : open_dev sys p with
      | none =>
        rw [open_args_cons_none sys p rest devs tried h hd] at hc
        exact ih devs _ c hc
      | some d =>
        rw [open_args_cons_some sys p rest devs tried d h hd] at hc
        rcases ih _ _ c hc with h1 | h1
        · rcases List.mem_append.mp h1 with h2 | h2
          · exact Or.inl h2
          · right
            rw [List.mem_singleton] at h2
            subst h2
            exact ⟨by rw [open_dev_path sys p d hd]; exact hd, rfl⟩
        · exact Or.inr h1
    · rw [open_args_cons_full sys p rest devs tried h] at hc
      exact Or.inl hc

/-- The paths the argument loop tries: a prefix of the arguments, each tried while a
slot was free, and all of them unless the slots ran out. -/
theorem open_args_tried (sys : String → DevNode) (rest : List String)
    (devs : List evdev_context) (tried : List String) :
    ∃ more, (open_args sys rest devs tried).2 = tried ++ more
      ∧ more <+: rest
      ∧ (∀ q x t, more = q ++ x :: t →
          (q.filter (passes sys)).length + devs.length < MAX_DEVS)
      ∧ (more ≠ rest → MAX_DEVS ≤ (more.filter (passes sys)).length + devs.length) := by
  induction rest generalizing devs tried with
  | nil =>
    refine ⟨[], by simp [open_args], List.prefix_refl _, ?_, fun h => absurd rfl h⟩
    intro q x t h
    exact absurd h (by simp)
  | cons p rest ih =>
    by_cases h : devs.length < MAX_DEVS
    · cases hd : open_dev sys p with
      | none =>
        have hp : passes sys p = false := by simp [passes, hd]
        obtain ⟨more, h1, h2, h3, h4⟩ := ih devs (tried ++ [p])
        refine ⟨p :: more, ?_, ?_, ?_, ?_⟩
        · rw [open_args_cons_none sys p rest devs tried h hd, h1]; simp
        · exact (List.prefix_cons_inj p).mpr h2
        · intro q x t hq
          cases q with
          | nil => simpa using h
          | cons y q =>
            simp only [List.cons_append, List.cons.injEq] at hq
            obtain ⟨rfl, hq⟩ := hq
            have := h3 q x t hq
            simpa [hp] using this
        · intro hne
          have : more ≠ rest := fun e => hne (by rw [e])
          simpa [hp] using h4 this
      | some d =>
        have hp : passes sys p = true := by simp [passes, hd]
        obtain ⟨more, h1, h2, h3, h4⟩ := ih (devs ++ [⟨d, 0⟩]) (tried ++ [p])
        refine ⟨p :: more, ?_, ?_, ?_, ?_⟩
        · rw [open_args_cons_some sys p rest devs tried d h hd, h1]; simp
        · exact (List.prefix_cons_inj p).mpr h2
        · intro q x t hq
          cases q with
          | nil => simpa using h
          | cons y q =>
            simp only [List.cons_append, List.cons.injEq] at hq
            obtain ⟨rfl, hq⟩ := hq
            have := h3 q x t hq
            simp only [List.length_append, List.length_singleton] at this
            simp only [List.filter_cons_of_pos hp, List.length_cons]
            omega
        · intro hne
          have : more ≠ rest := fun e => hne (by rw [e])
          have := h4 this
          simp only [List.length_append, List.length_singleton] at this
          simp only [List.filter_cons_of_pos hp, List.length_cons]
          omega
    · refine ⟨[], ?_, List.nil_prefix, ?_, ?_⟩
      · rw [open_args_cons_full sys p rest devs tried h]; simp
      · intro q x t hq
        exact absurd hq (by simp)
      · intro _
        simp only [List.filter_nil, List.length_nil]
        omega

/-- Claim C9: With at least one path argument: the slots hold, in argument order, the first
two arguments that pass `open_dev` (all of them if fewer than two pass), each with the
handle `open_dev` gave and mask 0; `find_devs` is not called; the paths tried are a
prefix of the arguments, each tried while fewer than two earlier ones had passed, and
the loop leaves arguments untried only when two have passed. -/
theorem explicit_paths (sys : String → DevNode) (u : Udev) (args : List String)
    (hargs : args ≠ []) :
    (locate sys u args).devs.map (fun c => c.dev.path) = (args.filter (passes sys)).take 2
      ∧ (locate sys u args).devs.length = min 2 (args.filter (passes sys)).length
      ∧ (locate sys u args).devs.length ≤ 2
      ∧ (∀ c ∈ (locate sys u args).devs,
          open_dev sys c.dev.path = some c.dev ∧ c.modifiers = 0)
      ∧ (locate sys u args).discovered = false
      ∧ (locate sys u args).tried <+: args
      ∧ (∀ q x t, (locate sys u args).tried = q ++ x :: t →
          (q.filter (passes sys)).length < 2)
      ∧ ((locate sys u args).tried ≠ args →
          ((locate sys u args).tried.filter (passes sys)).length = 2) := by
  have hloc : locate sys u args
      = ⟨(open_args sys args [] []).1, (open_args sys args [] []).2, false⟩ := by
    simp [locate, hargs]
  have hpaths := open_args_paths sys args [] []
  simp only [List.map_nil, List.nil_append, List.length_nil, Nat.sub_zero] at hpaths
  obtain ⟨more, h1, h2, h3, h4⟩ := open_args_tried sys args [] []
  simp only [List.nil_append, List.length_nil, Nat.add_zero] at h1 h3 h4
  rw [hloc]
  have hlen : (open_args sys args [] []).1.length
      = min 2 (args.filter (passes sys)).length := by
    have := congrArg List.length hpaths
    simpa [MAX_DEVS] using this
  rw [h1]
  refine ⟨hpaths, hlen, ?_, ?_, rfl, h2, h3, ?_⟩
  · rw [hlen]; exact Nat.min_le_left _ _
  · intro c hc
    rcases open_args_slots sys args [] [] c hc with h | h
    · exact absurd h (by simp)
    · exact h
  · intro hne
    have hge := h4 hne
    rcases List.eq_nil_or_concat more with hnil | ⟨q, x, hq⟩
    · subst hnil
      simp [MAX_DEVS] at hge
    · have hlt := h3 q x [] (by rw [hq]; simp)
      rw [hq] at hge ⊢
      simp only [List.concat_eq_append, List.filter_append, List.length_append] at hge ⊢
      have hx : ([x].filter (passes sys)).length ≤ 1 := by
        have := List.length_filter_le (passes sys) [x]
        simpa using this
      simp only [MAX_DEVS] at hge hlt
      omega

theorem explicit_paths_witness :
    ["/dev/input/event5", "/dev/input/event7", "/dev/input/event3", "/dev/input/event9"] ≠ []
    ∧ (locate sample_sys sample_udev
          ["/dev/input/event5", "/dev/input/event7", "/dev/input/event3",
            "/dev/input/event9"]).devs.map (fun c => c.dev.path)
        = (["/dev/input/event5", "/dev/input/event7", "/dev/input/event3",
            "/dev/input/event9"].filter (passes sample_sys)).take 2 :=
  ⟨by decide,
    (explicit_paths sample_sys sample_udev
      ["/dev/input/event5", "/dev/input/event7", "/dev/input/event3", "/dev/input/event9"]
      (by decide)).1⟩

/-- Claim C10: If `find_devs` fills no slot when there are no path arguments, or every path
argument fails `open_dev`, then `main` returns 0 without entering its loop, whatever
inputs are waiting, and has not called `do_press`. -/
theorem no_devices_exit (sys : String → DevNode) (u : Udev) (args : List String)
    (inputs : List Input)
    (h : (args = [] ∧ (find_devs sys u).1 = [])
      ∨ (args ≠ [] ∧ ∀ p ∈ args, open_dev sys p = none)) :
    main sys u args inputs = MainResult.returned 0 [] := by
  have hdevs : (locate sys u args).devs = [] := by
    rcases h with ⟨h1, h2⟩ | ⟨h1, h2⟩
    · subst h1
      simp [locate, h2]
    · have hpaths := open_args_paths sys args [] []
      have hfilter : args.filter (passes sys) = [] := by
        rw [List.filter_eq_nil_iff]
        intro p hp
        simp [passes, h2 p hp]
      rw [hfilter] at hpaths
      simp only [List.map_nil, List.nil_append, List.take_nil, List.map_eq_nil_iff] at hpaths
      simp [locate, h1, hpaths]
  simp [main, hdevs]

theorem no_devices_exit_witness :
    ((["/dev/input/event5", "/dev/input/event0"] = []
        ∧ (find_devs sample_sys sample_udev).1 = [])
      ∨ (["/dev/input/event5", "/dev/input/event0"] ≠ []
        ∧ ∀ p ∈ ["/dev/input/event5", "/dev/input/event0"], open_dev sample_sys p = none))
    ∧ main sample_sys sample_udev ["/dev/input/event5", "/dev/input/event0"]
          [decoded 0 (lid_switch 1)]
        = MainResult.returned 0 [] :=
  ⟨Or.inr ⟨by decide, by decide⟩,
    no_devices_exit sample_sys sample_udev ["/dev/input/event5", "/dev/input/event0"]
      [decoded 0 (lid_switch 1)] (Or.inr ⟨by decide, by decide⟩)⟩

/-! ## The external call of `do_press`: claims C11 and C12 -/

theorem wait_loop_calls (l : List (Int × Int)) (calls : Nat) :
    calls ≤ (wait_loop l calls).1 ∧ (l ≠ [] → calls + 1 ≤ (wait_loop l calls).1) := by
  induction l generalizing calls with
  | nil => exact ⟨Nat.le_refl _, fun h => absurd rfl h⟩
  | cons w l ih =>
    obtain ⟨ret, errno⟩ := w
    have h := (ih (calls + 1)).1
    simp only [wait_loop]
    constructor
    · split
      · exact Nat.le_succ _
      · split
        · exact Nat.le_succ _
        · exact Nat.le_trans (Nat.le_succ _) h
    · intro _
      split
      · exact Nat.le_refl _
      · split
        · exact Nat.le_refl _
        · exact h

theorem wait_loop_returns (l : List (Int × Int)) (calls : Nat)
    (h : ∃ w ∈ l, ends_wait w = true) : (wait_loop l calls).2 = true := by
  induction l generalizing calls with
  | nil =>
    obtain ⟨w, hw, _⟩ := h
    exact absurd hw (List.not_mem_nil w)
  | cons a l ih =>
    obtain ⟨ret, errno⟩ := a
    simp only [wait_loop]
    split
    · rfl
    · rename_i h1
      split
      · rfl
      · rename_i h2
        apply ih
        obtain ⟨w, hw, he⟩ := h
        rcases List.mem_cons.mp hw with hw | hw
        · subst hw
          simp only [ends_wait, Bool.or_eq_true, decide_eq_true_eq] at he
          rcases he with he | he
          · exact absurd he h1
          · exact absurd he h2
        · exact ⟨w, hw, he⟩

/-- Claim C11, as the code departs from it: when `posix_spawn` fails, which it reports
by a positive error number, `do_press` still enters the wait loop and calls `waitpid`
at least once; with the error `ENOENT` and `waitpid` answering `ECHILD` it calls
`waitpid` once before it returns. Only a negative return value skips the loop. -/
theorem spawn_failure_waits (type : PressType) (s : State) :
    (∀ (n : Nat) (w : Int × Int) (ws : List (Int × Int)),
        1 ≤ (do_press_sys type ((n : Int) + 1) (w :: ws) s).waitpid_calls)
      ∧ (do_press_sys type ENOENT [(-1, ECHILD)] s).waitpid_calls = 1
      ∧ (do_press_sys type ENOENT [(-1, ECHILD)] s).returned = true
      ∧ (∀ (n : Nat) (ws : List (Int × Int)),
          (do_press_sys type (-((n : Int) + 1)) ws s).waitpid_calls = 0) := by
  refine ⟨?_, rfl, rfl, ?_⟩
  · intro n w ws
    have h : ¬ ((n : Int) + 1 < 0) := by omega
    simp only [do_press_sys, if_neg h]
    have := (wait_loop_calls (w :: ws) 0).2 (List.cons_ne_nil w ws)
    simpa using this
  · intro n ws
    have h : -((n : Int) + 1) < 0 := by omega
    simp only [do_press_sys, if_pos h]

/-- Claim C12: Whatever the gesture kind, the return value of `posix_spawn` and the
outcomes of `waitpid`: in the state in which `posix_spawn` is called the alarm is
cancelled and `got_alarm` is false, the state `do_press` leaves behind is that same
state, and the function returns as soon as the spawn reports a negative value or one
`waitpid` outcome ends the wait. -/
theorem do_press_disarms_first (type : PressType) (spawn_ret : Int)
    (waits : List (Int × Int)) (s : State) :
    (do_press_sys type spawn_ret waits s).at_spawn.timer = 0
      ∧ (do_press_sys type spawn_ret waits s).at_spawn.got_alarm = false
      ∧ (do_press_sys type spawn_ret waits s).final.timer = 0
      ∧ (do_press_sys type spawn_ret waits s).final.got_alarm = false
      ∧ (do_press_sys type spawn_ret waits s).final
          = (do_press_sys type spawn_ret waits s).at_spawn
      ∧ (do_press_sys type spawn_ret waits s).final = do_press type s
      ∧ ((spawn_ret < 0 ∨ ∃ w ∈ waits, ends_wait w = true) →
          (do_press_sys type spawn_ret waits s).returned = true) := by
  by_cases h : spawn_ret < 0
  · have e : do_press_sys type spawn_ret waits s
        = ⟨do_press type s, 0, true, do_press type s⟩ := by
      simp only [do_press_sys, if_pos h]
    rw [e]
    exact ⟨rfl, rfl, rfl, rfl, rfl, rfl, fun _ => rfl⟩
  · have e : do_press_sys type spawn_ret waits s
        = ⟨do_press type s, (wait_loop waits 0).1, (wait_loop waits 0).2, do_press type s⟩ := by
      simp only [do_press_sys, if_neg h]
    rw [e]
    refine ⟨rfl, rfl, rfl, rfl, rfl, rfl, ?_⟩
    rintro (h1 | h1)
    · exact absurd h1 h
    · exact wait_loop_returns waits 0 h1

theorem do_press_disarms_first_witness :
    ((0 : Int) < 0 ∨ ∃ w ∈ [((-1 : Int), EINTR), (-1, EAGAIN), (812, 0)], ends_wait w = true)
    ∧ (do_press_sys PressType.long 0 [(-1, EINTR), (-1, EAGAIN), (812, 0)]
          { init sample_devs with press_active := true, got_alarm := true, timer := 1 })
        = ⟨{ init sample_devs with press_active := true, presses := [PressType.long] }, 3, true,
            { init sample_devs with press_active := true, presses := [PressType.long] }⟩
    ∧ (do_press_sys PressType.long 0 [(-1, EINTR), (-1, EAGAIN), (812, 0)]
          { init sample_devs with press_active := true, got_alarm := true, timer := 1 }).returned
        = true :=
  ⟨Or.inr ⟨(812, 0), by decide, by decide⟩, by decide,
    (do_press_disarms_first PressType.long 0 [(-1, EINTR), (-1, EAGAIN), (812, 0)]
      { init sample_devs with press_active := true, got_alarm := true, timer := 1 }).2.2.2.2.2.2
      (Or.inr ⟨(812, 0), by decide, by decide⟩)⟩

/-! ## Discovery: claim C13 -/

theorem open_args_full (sys : String → DevNode) (l : List String)
    (devs : List evdev_context) (tried : List String) (h : ¬ devs.length < MAX_DEVS) :
    open_args sys l devs tried = (devs, tried) := by
  cases l with
  | nil => rfl
  | cons p rest => exact open_args_cons_full sys p rest devs tried h

/-- The loop of `find_devs` is the argument loop of `main` run over the device nodes
of the entries that have a device object, are not marked ignore and have a node. -/
theorem find_devs_loop_eq (sys : String → DevNode) (entries : List (Option udev_device))
    (devs : List evdev_context) (tried : List String) :
    find_devs_loop sys entries devs tried
      = open_args sys (entries.filterMap candidate_path) devs tried := by
  induction entries generalizing devs tried with
  | nil => rfl
  | cons e rest ih =>
    by_cases h : devs.length < MAX_DEVS
    · cases e with
      | none =>
        have hc : candidate_path none = none := rfl
        rw [List.filterMap_cons_none hc]
        simp only [find_devs_loop, if_pos h]
        exact ih devs tried
      | some dev =>
        by_cases hi : dev.ignore.isSome = true
        · have hc : candidate_path (some dev) = none := by simp [candidate_path, hi]
          rw [List.filterMap_cons_none hc]
          simp only [find_devs_loop, if_pos h, hi, if_true]
          exact ih devs tried
        · cases hn : dev.devnode with
          | none =>
            have hc : candidate_path (some dev) = none := by simp [candidate_path, hi, hn]
            rw [List.filterMap_cons_none hc]
            simp only [find_devs_loop, if_pos h, hi, hn]
            exact ih devs tried
          | some p =>
            have hc : candidate_path (some dev) = some p := by simp [candidate_path, hi, hn]
            rw [List.filterMap_cons_some hc]
            cases hd : open_dev sys p with
            | none =>
              rw [open_args_cons_none sys p _ devs tried h hd]
              simp only [find_devs_loop, if_pos h, hi, hn, hd]
              exact ih devs (tried ++ [p])
            | some d =>
              rw [open_args_cons_some sys p _ devs tried d h hd]
              simp only [find_devs_loop, if_pos h, hi, hn, hd]
              exact ih (devs ++ [⟨d, 0⟩]) (tried ++ [p])
    · rw [open_args_full sys _ devs tried h]
      simp only [find_devs_loop, if_neg h]

theorem find_devs_ready (sys : String → DevNode) (u : Udev) (h : udev_ready u = true) :
    find_devs sys u = open_args sys (u.entries.filterMap candidate_path) [] [] := by
  simp only [udev_ready, Bool.and_eq_true, decide_eq_true_eq] at h
  obtain ⟨⟨⟨⟨⟨h1, h2⟩, h3⟩, h4⟩, h5⟩, h6⟩ := h
  simp only [find_devs, h1, h2, not_lt.mpr h3, not_lt.mpr h4, not_lt.mpr h5, not_lt.mpr h6,
    Bool.not_true, if_false, Bool.false_eq_true]
  exact find_devs_loop_eq sys u.entries [] []

theorem mem_candidate_paths (entries : List (Option udev_device)) (p : String)
    (h : p ∈ entries.filterMap candidate_path) :
    ∃ dev, some dev ∈ entries ∧ dev.ignore = none ∧ dev.devnode = some p := by
  obtain ⟨e, he, hc⟩ := List.mem_filterMap.mp h
  cases e with
  | none => exact absurd hc (by simp [candidate_path])
  | some dev =>
    refine ⟨dev, he, ?_⟩
    simp only [candidate_path] at hc
    by_cases hi : dev.ignore.isSome = true
    · rw [if_pos hi] at hc
      exact absurd hc (by simp)
    · rw [if_neg hi] at hc
      refine ⟨?_, hc⟩
      cases hx : dev.ignore with
      | none => rfl
      | some x => rw [hx] at hi; exact absurd rfl hi

/-- Claim C13: When the calls that set the enumeration up succeed, `find_devs` fills the
slots, in list order, with the first two entries that have a device object, are not
marked ignore, have a device node and pass `open_dev` (all of them if fewer than two
do), and returns their number; every path it opens is the node of an entry not marked
ignore; and no entry is opened once two have been accepted. -/
theorem find_devs_selects (sys : String → DevNode) (u : Udev) (hready : udev_ready u = true) :
    (find_devs sys u).1.map (fun c => c.dev.path)
        = ((u.entries.filterMap candidate_path).filter (passes sys)).take 2
      ∧ (find_devs sys u).1.length
          = min 2 ((u.entries.filterMap candidate_path).filter (passes sys)).length
      ∧ (∀ c ∈ (find_devs sys u).1, open_dev sys c.dev.path = some c.dev ∧ c.modifiers = 0)
      ∧ (find_devs sys u).2 <+: u.entries.filterMap candidate_path
      ∧ (∀ p ∈ (find_devs sys u).2,
          ∃ dev, some dev ∈ u.entries ∧ dev.ignore = none ∧ dev.devnode = some p)
      ∧ (∀ q x t, (find_devs sys u).2 = q ++ x :: t →
          (q.filter (passes sys)).length < 2) := by
  rw [find_devs_ready sys u hready]
  have hpaths := open_args_paths sys (u.entries.filterMap candidate_path) [] []
  simp only [List.map_nil, List.nil_append, List.length_nil, Nat.sub_zero] at hpaths
  obtain ⟨more, h1, h2, h3, _⟩ := open_args_tried sys (u.entries.filterMap candidate_path) [] []
  simp only [List.nil_append, List.length_nil, Nat.add_zero] at h1 h3
  rw [h1]
  refine ⟨hpaths, ?_, ?_, h2, ?_, h3⟩
  · have := congrArg List.length hpaths
    simpa [MAX_DEVS] using this
  · intro c hc
    rcases open_args_slots sys _ [] [] c hc with h | h
    · exact absurd h (by simp)
    · exact h
  · intro p hp
    exact mem_candidate_paths u.entries p (h2.subset hp)

theorem find_devs_selects_witness :
    udev_ready sample_entries = true
    ∧ (find_devs sample_sys sample_entries).1.map (fun c => c.dev.path)
        = ["/dev/input/event7", "/dev/input/event9"]
    ∧ (find_devs sample_sys sample_entries).1.map (fun c => c.dev.path)
        = ((sample_entries.entries.filterMap candidate_path).filter (passes sample_sys)).take 2 :=
  ⟨by decide, by decide, (find_devs_selects sample_sys sample_entries (by decide)).1⟩

/-! ## The remaining transitions: claims C14 to C16 -/

/-- Claim C14: In every state a power-key down sets `press_active`, replaces whatever
alarm was pending by one of 1 second, and changes nothing else, so `do_press` is not
called; two power-key downs followed by a power-key up make one call
`do_press short` and leave the classifier idle with no alarm pending. -/
theorem power_down_arms (s : State) (i j k : Nat) :
    step s (decoded i (power_key 1)) = { s with press_active := true, timer := 1 }
      ∧ (step s (decoded i (power_key 1))).presses = s.presses
      ∧ run s [decoded i (power_key 1), decoded j (power_key 1), decoded k (power_key 0)]
          = { s with press_active := false, got_alarm := false, timer := 0,
                     presses := s.presses ++ [PressType.short] } := by
  refine ⟨?_, ?_, ?_⟩
  · rw [step_power_down]; rfl
  · rw [step_power_down]; rfl
  · rw [run_cons, run_cons, run_cons, run_nil, step_power_down, step_power_down,
      step_power_up_active _ _ rfl]
    rfl

/-- An event the classifier does not react to leaves the state as it is. -/
theorem step_unhandled (s : State) (i : Nat) (ev : input_event)
    (hev : is_handled s i ev = false) : step s (decoded i ev) = s := by
  obtain ⟨t, c, v⟩ := ev
  simp only [is_handled, Bool.or_eq_false_iff, Bool.and_eq_false_iff, decide_eq_false_iff_not,
    power_key, lid_switch, f16_key, input_event.mk.injEq, not_and] at hev
  obtain ⟨⟨⟨⟨h1, h2⟩, h3⟩, h4⟩, h5⟩ := hev
  simp only [step, decoded, if_true, handle_event]
  repeat' (apply ite_ind (fun r => r = s) <;> intro _)
  all_goals first
    | rfl
    | exfalso
  all_goals first
    | exact h1 (by assumption) (by assumption) (by assumption)
    | (rename_i hv
       exact h2.elim (fun h => h (by assumption) (by assumption) hv.1)
         (fun h => by rw [hv.2] at h; exact absurd h (by decide)))
    | (rename_i hc
       exact h3.elim (fun h => h (by assumption))
         (fun h => by rw [hc] at h; exact absurd h (by decide)))
    | (rename_i hv
       exact h4.elim (fun h => h (by assumption) (by assumption) hv.1)
         (fun h => by rw [(guard_iff_meta_only _).mp hv.2] at h; exact absurd h (by decide)))
    | (rename_i hl
       exact h5 (by assumption) hl.1 hl.2)

/-- Claim C15: On every device and in every state, a decoded event that is neither a
power-key down, nor a power-key up while a press is active, nor a modifier key event,
nor an F16 down under the meta-only guard, nor a lid-switch event with value 1 leaves
the whole state as it is (`press_active`, the alarm, `got_alarm`, every mask and the
calls of `do_press`); so do in particular a power-key repeat, a power-key up while
idle, a lid-switch event with value 0, an F16 up or repeat, any key code outside the
switch, and any event type other than `EV_KEY` and `EV_SW`. -/
theorem other_events_ignored (s : State) (i : Nat) :
    (∀ ev, is_handled s i ev = false → step s (decoded i ev) = s)
      ∧ step s (decoded i (power_key 2)) = s
      ∧ (s.press_active = false → step s (decoded i (power_key 0)) = s)
      ∧ step s (decoded i (lid_switch 0)) = s
      ∧ step s (decoded i (f16_key 0)) = s
      ∧ step s (decoded i (f16_key 2)) = s
      ∧ (∀ code v, code ≠ KEY_POWER → is_modifier_code code = false → code ≠ KEY_F16 →
          step s (decoded i ⟨EV_KEY, code, v⟩) = s)
      ∧ (∀ t c v, t ≠ EV_KEY → t ≠ EV_SW → step s (decoded i ⟨t, c, v⟩) = s) := by
  refine ⟨step_unhandled s i, ?_, ?_, ?_, ?_, ?_, ?_, ?_⟩
  · apply step_unhandled
    have h1 : is_modifier_code 116 = false := by decide
    simp [is_handled, power_key, f16_key, lid_switch, h1, EV_KEY, EV_SW, KEY_POWER, KEY_F16]
  · intro hs
    apply step_unhandled
    have h1 : is_modifier_code 116 = false := by decide
    simp [is_handled, power_key, f16_key, lid_switch, h1, hs, EV_KEY, EV_SW, KEY_POWER, KEY_F16]
  · apply step_unhandled
    simp [is_handled, power_key, f16_key, lid_switch, EV_KEY, EV_SW]
  · apply step_unhandled
    have h1 : is_modifier_code 186 = false := by decide
    simp [is_handled, power_key, f16_key, lid_switch, h1, EV_KEY, EV_SW, KEY_POWER, KEY_F16]
  · apply step_unhandled
    have h1 : is_modifier_code 186 = false := by decide
    simp [is_handled, power_key, f16_key, lid_switch, h1, EV_KEY, EV_SW, KEY_POWER, KEY_F16]
  · intro code v h1 h2 h3
    apply step_unhandled
    simp [is_handled, power_key, f16_key, lid_switch, h1, h2, h3, EV_KEY, EV_SW]
  · intro t c v h1 h2
    apply step_unhandled
    simp [is_handled, power_key, f16_key, lid_switch, h1, h2]

theorem other_events_ignored_witness :
    is_handled { init sample_devs with press_active := true, timer := 1 } 0 ⟨EV_SW, 5, 1⟩ = false
    ∧ step { init sample_devs with press_active := true, timer := 1 } (decoded 0 ⟨EV_SW, 5, 1⟩)
        = { init sample_devs with press_active := true, timer := 1 } :=
  ⟨by decide,
    (other_events_ignored { init sample_devs with press_active := true, timer := 1 } 0).1
      ⟨EV_SW, 5, 1⟩ (by decide)⟩

theorem step_f16_down (s : State) (i : Nat) :
    step s (decoded i (f16_key 1))
      = if meta_only (modifiers s i) = true then
          { s with press_active := false, got_alarm := false, timer := 0,
                   presses := s.presses ++ [PressType.long] }
        else s := by
  have h := guard_iff_meta_only (modifiers s i)
  by_cases hmeta : meta_only (modifiers s i) = true
  · have hg := h.mpr hmeta
    rw [if_pos hmeta]
    simp only [step, decoded, if_true, handle_event, f16_key]
    simp [EV_KEY, KEY_F16, KEY_POWER, KEY_LEFTSHIFT, KEY_RIGHTSHIFT, KEY_LEFTCTRL,
      KEY_RIGHTCTRL, KEY_LEFTALT, KEY_RIGHTALT, KEY_LEFTMETA, KEY_RIGHTMETA, hg.1, hg.2,
      do_press, alarm]
  · have hg : ¬ (modifiers s i &&& MOD_META ≠ 0 ∧ modifiers s i &&& bnot MOD_META = 0) :=
      fun hg => hmeta (h.mp hg)
    rw [if_neg hmeta]
    simp only [step, decoded, if_true, handle_event, f16_key]
    simp only [EV_KEY, KEY_F16, KEY_POWER, KEY_LEFTSHIFT, KEY_RIGHTSHIFT, KEY_LEFTCTRL,
      KEY_RIGHTCTRL, KEY_LEFTALT, KEY_RIGHTALT, KEY_LEFTMETA, KEY_RIGHTMETA] at hg ⊢
    simp [hg]

/-- Claim C16: If the mask of device `a` has a meta bit and nothing else while the mask
of device `b` is 0, an F16 down delivered by `b` leaves the state as it is and the same
event delivered by `a` makes one call `do_press long`; and in any two states in which
device `i` has the same mask, whatever the other masks are, an F16 down delivered by
`i` either dispatches in both or changes neither. -/
theorem hotkey_per_device :
    (∀ (s : State) (a b : Nat), meta_only (modifiers s a) = true → modifiers s b = 0 →
        step s (decoded b (f16_key 1)) = s
          ∧ step s (decoded a (f16_key 1))
              = { s with press_active := false, got_alarm := false, timer := 0,
                         presses := s.presses ++ [PressType.long] })
      ∧ (∀ (s1 s2 : State) (i : Nat), modifiers s1 i = modifiers s2 i →
          (step s1 (decoded i (f16_key 1))
                = { s1 with press_active := false, got_alarm := false, timer := 0,
                            presses := s1.presses ++ [PressType.long] }
              ∧ step s2 (decoded i (f16_key 1))
                = { s2 with press_active := false, got_alarm := false, timer := 0,
                            presses := s2.presses ++ [PressType.long] })
            ∨ (step s1 (decoded i (f16_key 1)) = s1
              ∧ step s2 (decoded i (f16_key 1)) = s2)) := by
  constructor
  · intro s a b ha hb
    have h0 : meta_only 0 = true ↔ False := by decide
    constructor
    · rw [step_f16_down, hb, if_neg (fun h => h0.mp h)]
    · rw [step_f16_down, if_pos ha]
  · intro s1 s2 i h
    rw [step_f16_down, step_f16_down, h]
    by_cases hm : meta_only (modifiers s2 i) = true
    · rw [if_pos hm, if_pos hm]
      exact Or.inl ⟨rfl, rfl⟩
    · rw [if_neg hm, if_neg hm]
      exact Or.inr ⟨rfl, rfl⟩

theorem hotkey_per_device_witness :
    (meta_only (modifiers (init [⟨⟨"/dev/input/event3", 3, []⟩, 0x40⟩,
        ⟨⟨"/dev/input/event4", 4, []⟩, 0⟩]) 0) = true
      ∧ modifiers (init [⟨⟨"/dev/input/event3", 3, []⟩, 0x40⟩,
        ⟨⟨"/dev/input/event4", 4, []⟩, 0⟩]) 1 = 0)
    ∧ step (init [⟨⟨"/dev/input/event3", 3, []⟩, 0x40⟩, ⟨⟨"/dev/input/event4", 4, []⟩, 0⟩])
          (decoded 1 (f16_key 1))
        = init [⟨⟨"/dev/input/event3", 3, []⟩, 0x40⟩, ⟨⟨"/dev/input/event4", 4, []⟩, 0⟩]
    ∧ step (init [⟨⟨"/dev/input/event3", 3, []⟩, 0x40⟩, ⟨⟨"/dev/input/event4", 4, []⟩, 0⟩])
          (decoded 0 (f16_key 1))
        = { init [⟨⟨"/dev/input/event3", 3, []⟩, 0x40⟩, ⟨⟨"/dev/input/event4", 4, []⟩, 0⟩]
              with presses := [PressType.long] } :=
  ⟨⟨by decide, by decide⟩,
    hotkey_per_device.1
      (init [⟨⟨"/dev/input/event3", 3, []⟩, 0x40⟩, ⟨⟨"/dev/input/event4", 4, []⟩, 0⟩]) 0 1
      (by decide) (by decide)⟩

/-! ## Invariants of the loop: claims C17 and C18 -/

theorem step_idle_quiet (s : State) (x : Input) (h : idle_quiet s) :
    idle_quiet (step s x) := by
  cases x with
  | alarm_expired =>
    simp only [step]
    apply ite_ind idle_quiet
    · intro ht hp
      exact absurd (h hp).1 ht
    · intro _
      exact h
  | poll res errno =>
    simp only [step]
    apply ite_ind idle_quiet
    · intro _ _
      exact ⟨rfl, rfl⟩
    · intro _
      exact h
  | next_event i res ev =>
    simp only [step]
    apply ite_ind idle_quiet
    · intro _
      apply handle_event_cases idle_quiet
      · intro _ hp
        exact absurd hp (by simp [alarm])
      · intro k _
        exact ⟨rfl, rfl⟩
      · intro m
        exact h
      · exact h
    · intro _
      apply ite_ind idle_quiet
      · intro _ _
        exact ⟨rfl, rfl⟩
      · intro _
        exact h

theorem run_idle_quiet (inputs : List Input) (s : State) (h : idle_quiet s) :
    idle_quiet (run s inputs) := by
  induction inputs generalizing s with
  | nil => exact h
  | cons x xs ih =>
    rw [run_cons]
    exact ih (step s x) (step_idle_quiet s x h)

/-- Claim C17: In every state the loop reaches from its initial state, a pending alarm
implies `press_active`; whenever `press_active` is false no alarm is pending and
`got_alarm` is false, so that the expiry of the alarm, any return of `poll` and any
failed read leave the state as it is. -/
theorem timer_implies_press_active (devs : List evdev_context) (inputs : List Input) :
    ((run (init devs) inputs).timer ≠ 0 → (run (init devs) inputs).press_active = true)
      ∧ ((run (init devs) inputs).press_active = false →
          (run (init devs) inputs).timer = 0 ∧ (run (init devs) inputs).got_alarm = false)
      ∧ ((run (init devs) inputs).press_active = false →
          ∀ x, is_timer_wakeup x = true →
            step (run (init devs) inputs) x = run (init devs) inputs) := by
  have h := run_idle_quiet inputs (init devs) (fun _ => ⟨rfl, rfl⟩)
  refine ⟨?_, h, ?_⟩
  · intro ht
    cases hp : (run (init devs) inputs).press_active with
    | true => rfl
    | false => exact absurd (h hp).1 ht
  · intro hp x hx
    obtain ⟨h1, h2⟩ := h hp
    cases x with
    | alarm_expired => simp [step, h1]
    | poll res errno => simp [step, hp]
    | next_event i res ev =>
      have hr : res ≠ LIBEVDEV_READ_STATUS_SUCCESS := by simpa [is_timer_wakeup] using hx
      simp [step, hp, hr]

theorem timer_implies_press_active_witness :
    (run (init sample_devs) [decoded 0 (power_key 1), Input.alarm_expired,
        Input.poll (-1) EINTR, Input.alarm_expired]).press_active = false
    ∧ (run (init sample_devs) [decoded 0 (power_key 1), Input.alarm_expired,
        Input.poll (-1) EINTR, Input.alarm_expired]).timer = 0
    ∧ (run (init sample_devs) [decoded 0 (power_key 1), Input.alarm_expired,
        Input.poll (-1) EINTR, Input.alarm_expired]).got_alarm = false :=
  ⟨by decide,
    (timer_implies_press_active sample_devs [decoded 0 (power_key 1), Input.alarm_expired,
      Input.poll (-1) EINTR, Input.alarm_expired]).2.1 (by decide)⟩

/-- Case analysis on the result of `handle_event` that keeps track of which bit a
modifier key rewrites. -/
theorem handle_event_cases_bits (P : State → Prop) (i : Nat) (ev : input_event) (s : State)
    (h_down : P (alarm 1 { s with press_active := true }))
    (h_press : ∀ k, P (do_press k { s with press_active := false }))
    (h_mod : ∀ k, k < 8 →
      P (set_modifiers s i (track_modifier (2 ^ k) ev.value (modifiers s i))))
    (h_same : P s) : P (handle_event i ev s) := by
  unfold handle_event
  repeat' (apply ite_ind P <;> intro _)
  all_goals first
    | exact h_same
    | exact h_press _
    | exact h_down
    | exact h_mod 0 (by decide)
    | exact h_mod 1 (by decide)
    | exact h_mod 2 (by decide)
    | exact h_mod 3 (by decide)
    | exact h_mod 4 (by decide)
    | exact h_mod 5 (by decide)
    | exact h_mod 6 (by decide)
    | exact h_mod 7 (by decide)

theorem track_modifier_small (k : Nat) (hk : k < 8) (v : Int) (m : Nat) (hm : m ≤ 0xFF) :
    track_modifier (2 ^ k) v m ≤ 0xFF := by
  have h1 : m &&& bnot (2 ^ k) < 2 ^ 8 :=
    Nat.lt_of_le_of_lt Nat.and_le_left (by omega)
  have h2 : 2 ^ k < 2 ^ 8 := Nat.pow_lt_pow_right (by decide) hk
  have h3 : (m &&& bnot (2 ^ k)) ||| 2 ^ k < 2 ^ 8 := Nat.or_lt_two_pow h1 h2
  unfold track_modifier
  simp only
  split
  · omega
  · omega

theorem masks_small_set_modifiers (s : State) (i m : Nat) (hs : masks_small s)
    (hm : m ≤ 0xFF) : masks_small (set_modifiers s i m) := by
  intro j
  by_cases hj : j = i
  · subst hj
    by_cases hi : j < s.devs.length
    · rw [modifiers_set_modifiers_eq s j m hi]
      exact hm
    · rw [set_modifiers_out_of_range s j m (not_lt.mp hi)]
      exact hs j
  · rw [modifiers_set_modifiers_ne s i j m hj]
    exact hs j

theorem step_masks_small (s : State) (x : Input) (h : masks_small s) :
    masks_small (step s x) := by
  cases x with
  | alarm_expired =>
    simp only [step]
    exact ite_ind masks_small _ _ _ (fun _ => h) (fun _ => h)
  | poll res errno =>
    simp only [step]
    exact ite_ind masks_small _ _ _ (fun _ => h) (fun _ => h)
  | next_event i res ev =>
    simp only [step]
    apply ite_ind masks_small
    · intro _
      apply handle_event_cases_bits masks_small
      · exact h
      · intro _
        exact h
      · intro k hk
        exact masks_small_set_modifiers s i _ h (track_modifier_small k hk _ _ (h i))
      · exact h
    · intro _
      exact ite_ind masks_small _ _ _ (fun _ => h) (fun _ => h)

theorem run_masks_small (inputs : List Input) (s : State) (h : masks_small s) :
    masks_small (run s inputs) := by
  induction inputs generalizing s with
  | nil => exact h
  | cons x xs ih =>
    rw [run_cons]
    exact ih (step s x) (step_masks_small s x h)

theorem init_modifiers_zero (devs : List evdev_context)
    (h : ∀ c ∈ devs, c.modifiers = 0) (i : Nat) : modifiers (init devs) i = 0 := by
  simp only [modifiers, init]
  cases hc : devs[i]? with
  | none => rfl
  | some c => exact h c (List.getElem?_mem hc)

/-- Every slot that device selection fills has mask 0. -/
theorem locate_modifiers_zero (sys : String → DevNode) (u : Udev) (args : List String) :
    ∀ c ∈ (locate sys u args).devs, c.modifiers = 0 := by
  intro c hc
  by_cases hargs : args = []
  · have hloc : (locate sys u args).devs = (find_devs sys u).1 := by
      simp [locate, hargs]
    rw [hloc] at hc
    by_cases hr : udev_ready u = true
    · rw [find_devs_ready sys u hr] at hc
      rcases open_args_slots sys _ [] [] c hc with h | h
      · exact absurd h (by simp)
      · exact h.2
    · exfalso
      revert hc
      unfold find_devs
      repeat' (apply ite_ind (fun r : List evdev_context × List String => c ∈ r.1 → False)
        <;> intro _)
      all_goals first
        | exact fun h => absurd h (by simp)
        | skip
      intro _
      apply hr
      simp only [udev_ready, Bool.and_eq_true, decide_eq_true_eq]
      simp_all
  · have hloc : (locate sys u args).devs = (open_args sys args [] []).1 := by
      simp [locate, hargs]
    rw [hloc] at hc
    rcases open_args_slots sys _ [] [] c hc with h | h
    · exact absurd h (by simp)
    · exact h.2

/-- Claim C18: When `main` is in its loop, whatever events and timer wakeups it has been
fed and whatever their values: every mask was 0 when the loop was entered, and every
mask lies in the range 0 to 0xFF now. -/
theorem masks_in_range (sys : String → DevNode) (u : Udev) (args : List String)
    (inputs : List Input) (s : State)
    (h : main sys u args inputs = MainResult.looping s) :
    (∀ i, modifiers (init (locate sys u args).devs) i = 0)
      ∧ s = run (init (locate sys u args).devs) inputs
      ∧ ∀ i, modifiers s i ≤ 0xFF := by
  have h0 : ∀ i, modifiers (init (locate sys u args).devs) i = 0 :=
    init_modifiers_zero _ (locate_modifiers_zero sys u args)
  have hs : s = run (init (locate sys u args).devs) inputs := by
    simp only [main] at h
    split at h
    · exact absurd h (by simp)
    · simp only [MainResult.looping.injEq] at h
      exact h.symm
  refine ⟨h0, hs, ?_⟩
  rw [hs]
  apply run_masks_small
  intro i
  rw [h0 i]
  exact Nat.zero_le _

theorem masks_in_range_witness :
    main sample_sys sample_udev ["/dev/input/event3"]
        [decoded 0 ⟨EV_KEY, KEY_LEFTMETA, -5⟩, decoded 0 ⟨EV_KEY, KEY_RIGHTALT, 7⟩]
      = MainResult.looping
          { press_active := false, got_alarm := false, timer := 0,
            devs := [⟨⟨"/dev/input/event3", 3, [(EV_KEY, KEY_LEFTMETA), (EV_KEY, KEY_F16)]⟩,
              0x20⟩],
            presses := [] }
    ∧ modifiers
        { press_active := false, got_alarm := false, timer := 0,
          devs := [⟨⟨"/dev/input/event3", 3, [(EV_KEY, KEY_LEFTMETA), (EV_KEY, KEY_F16)]⟩,
            0x20⟩],
          presses := [] } 0 ≤ 0xFF :=
  ⟨by decide,
    (masks_in_range sample_sys sample_udev ["/dev/input/event3"]
      [decoded 0 ⟨EV_KEY, KEY_LEFTMETA, -5⟩, decoded 0 ⟨EV_KEY, KEY_RIGHTALT, 7⟩] _
      (by decide)).2.2 0⟩

end Powerbuttond
